import Mathlib

/-!
NMEA sentence parsing (`Task1-Programming/parseNMEA.cpp`).

A shallow embedding of the functions of namespace `NMEA` and the proofs of
their specification, followed by `GPX::format_name` of
`Task2-Refactoring/parseGPX.cpp`.

Modelling conventions.

* A `std::string` is the list of its raw bytes (`Str`), a byte being a value
  `0..255`.  `char` is a signed 8 bit type, as on the x86 and x86-64 ABIs of
  GCC, Clang and MSVC; `int` is 32 bit and `size_t` is 64 bit.
* Lines are shorter than `2^31` bytes, so an `int` that holds a length or an
  index of a line holds it exactly.  The conversions that do change a value at
  such sizes are written out: `npos` stored in an `int`, an `int` passed as a
  `size_t`, a `char` widened to `int`, an `int` narrowed to `char`.
* `std::isalpha`, `std::isxdigit` and `std::isspace` are those of the default
  "C" locale, false on every byte above 127.
* A function that can throw, or abort on an `assert`, returns `Except Failure`.
* `GPS::Position` and its constructor are declared outside this file; they are
  a type parameter and a function parameter of the functions that use them.
-/

namespace NMEA

/-! ## Bytes and strings -/

/-- One `char` of a `std::string`, as its raw byte value. -/
abbrev Byte := Fin 256

/-- A `std::string`: the sequence of its bytes. -/
abbrev Str := List Byte

/-- The byte of an ASCII character literal. -/
def ofChar (c : Char) : Byte := Fin.ofNat c.toNat

/-- The bytes of an ASCII string literal. -/
def lit (s : String) : Str := s.toList.map ofChar

/-- The ways in which a call can fail to return. -/
inductive Failure where
  /-- An `assert` did not hold and the program was aborted. -/
  | assertion_failed
  /-- A `std::invalid_argument` with its `what()` text. -/
  | invalid_argument (what : String)
  /-- A `std::out_of_range` with its `what()` text. -/
  | out_of_range (what : String)
  /-- An access outside the bounds of a container. -/
  | undefined_behaviour
  deriving DecidableEq, Repr

deriving instance DecidableEq for Except

/-- `std::string::npos`, the largest `size_t`. -/
def npos : Nat := 2 ^ 64 - 1

/-- An `int` (or the result of mixed `size_t` and `int` arithmetic) as a
`size_t`: a negative value wraps around modulo `2^64`, a value that is not
negative is kept (every size is below `2^64`). -/
def toSizeT (i : Int) : Nat := if i < 0 then (i + 2 ^ 64).toNat else i.toNat

/-- `std::string::substr(pos, count)`: throws when `pos` is beyond the end,
otherwise the `count` bytes from `pos`, or those up to the end when fewer. -/
def substr (s : Str) (pos count : Nat) : Except Failure Str :=
  if pos > s.length then .error (.out_of_range "basic_string::substr")
  else .ok ((s.drop pos).take count)

/-- `std::string::operator[]` with an `int` index, which is converted to
`size_t`: the byte at the index, the terminating zero at `size()`, and no
defined result beyond. -/
def index (s : Str) (i : Int) : Except Failure Byte :=
  match s[toSizeT i]? with
  | some b => .ok b
  | none => if toSizeT i = s.length then .ok 0 else .error .undefined_behaviour

/-- `std::find(first, last, value)` over a whole container, as the index of the
first element equal to `value`; the index is the length (`last`) when there is
none. -/
def find {α : Type} [DecidableEq α] (value : α) : List α → Nat
  | [] => 0
  | x :: xs => if x = value then 0 else find value xs + 1

/-- `std::count` over the whole string. -/
def count (s : Str) (c : Byte) : Nat := s.count c

/-- `std::isalpha` in the "C" locale. -/
def isalpha (c : Byte) : Bool :=
  (ofChar 'A' ≤ c && c ≤ ofChar 'Z') || (ofChar 'a' ≤ c && c ≤ ofChar 'z')

/-- `std::isxdigit`. -/
def isxdigit (c : Byte) : Bool :=
  (ofChar '0' ≤ c && c ≤ ofChar '9') || (ofChar 'A' ≤ c && c ≤ ofChar 'F')
    || (ofChar 'a' ≤ c && c ≤ ofChar 'f')

/-- `std::isspace` in the "C" locale: space, and tab to carriage return. -/
def isspace (c : Byte) : Bool := c = 32 || (9 ≤ c && c ≤ 13)

/-! ## The format registry and the well-formedness validator -/

/-- The `valid_formats` vector of `isSupportedSentenceFormat`. -/
def valid_formats : List Str := [lit "GLL", lit "GGA", lit "RMC"]

/-- `NMEA::isSupportedSentenceFormat`: `std::find` over `valid_formats`. -/
def isSupportedSentenceFormat (format : Str) : Bool :=
  let is_format_valid := find format valid_formats ≠ valid_formats.length
  is_format_valid

/-- `NMEA::isWellFormedSentence`: the six checks, in the order of the source,
each returning `false` as soon as it fails. -/
def isWellFormedSentence (candidateSentence : Str) : Except Failure Bool := do
  if candidateSentence.length < 10 then return false
  let asterisk_count := count candidateSentence (ofChar '*')
  let dollar_count := count candidateSentence (ofChar '$')
  if asterisk_count > 1 || dollar_count > 1 then return false
  let pfx ← substr candidateSentence 0 3
  if pfx ≠ lit "$GP" then return false
  let alph_chars ← substr candidateSentence 3 3
  let contains_non_alpha := alph_chars.any (fun c => !isalpha c)
  if contains_non_alpha == true then return false
  let asterisk_index : Int := (candidateSentence.length : Int) - 3
  let c ← index candidateSentence asterisk_index
  if c ≠ ofChar '*' then return false
  let checksum ← substr candidateSentence (toSizeT ((candidateSentence.length : Int) - 2)) npos
  let contains_invalid_hex_chars := checksum.any (fun c => !isxdigit c)
  if contains_invalid_hex_chars then return false
  return true

/-! ## The checksum verifier -/

/-- The value of a `char` holding the byte `b`, widened to `int`: bytes above
127 are the negative values of the signed type. -/
def charToInt (b : Byte) : Int := if b.val < 128 then (b.val : Int) else (b.val : Int) - 256

/-- An `int` narrowed to `char`: its low eight bits. -/
def intToChar (i : Int) : Byte := Fin.ofNat (i % 256).toNat

/-- `std::bit_xor<char>::operator()`: both arguments are `char`, and so is the
result. -/
def bit_xor_char (a b : Byte) : Byte := Fin.ofNat (a.val ^^^ b.val)

/-- `std::accumulate(first, last, init, std::bit_xor<char>())` with an `int`
accumulator: each step narrows the accumulator to the `char` argument of the
functor and widens the `char` result back to `int`. -/
def accumulate (range : List Byte) (init : Int) : Int :=
  range.foldl (fun acc c => charToInt (bit_xor_char (intToChar acc) c)) init

/-- The value of a base 16 digit. -/
def hexDigitValue (c : Byte) : Nat :=
  if ofChar '0' ≤ c && c ≤ ofChar '9' then c.val - 48
  else if ofChar 'A' ≤ c && c ≤ ofChar 'F' then c.val - 55
  else c.val - 87

/-- `std::stoi(str, nullptr, 16)`: skips leading white space, takes an optional
sign and an optional `0x` or `0X` that a digit follows, then converts the
longest run of base 16 digits; throws `std::invalid_argument` when there is no
digit and `std::out_of_range` when the value does not fit an `int`. -/
def stoi16 (str : Str) : Except Failure Int :=
  let s1 := str.dropWhile isspace
  let (negative, s2) :=
    match s1 with
    | c :: rest =>
      if c = ofChar '-' then (true, rest)
      else if c = ofChar '+' then (false, rest)
      else (false, s1)
    | [] => (false, s1)
  let s3 :=
    match s2 with
    | z :: x :: d :: rest =>
      if z = ofChar '0' && (x = ofChar 'x' || x = ofChar 'X') && isxdigit d then d :: rest
      else s2
    | _ => s2
  let digits := s3.takeWhile isxdigit
  if digits.isEmpty then .error (.invalid_argument "stoi")
  else
    let magnitude : Int := digits.foldl (fun acc d => 16 * acc + (hexDigitValue d : Int)) 0
    let value := if negative then -magnitude else magnitude
    if value < -(2 ^ 31) || value > 2 ^ 31 - 1 then .error (.out_of_range "stoi")
    else .ok value

/-- `NMEA::hasCorrectChecksum`: asserts well-formedness, reads the last two
characters as a base 16 integer and compares it with the xor reduction of the
characters from index 1 up to, not including, the third from the end. -/
def hasCorrectChecksum (sentence : Str) : Except Failure Bool := do
  if !(← isWellFormedSentence sentence) then throw .assertion_failed
  let checksum ← substr sentence (toSizeT ((sentence.length : Int) - 2)) npos
  let checksum_int ← stoi16 checksum
  let xor_reduction_val := accumulate ((sentence.take (sentence.length - 3)).drop 1) 0
  let is_checksum_correct := checksum_int == xor_reduction_val
  return is_checksum_correct

/-! ## The sentence splitter -/

/-- `NMEA::SentenceData` (declared in `parseNMEA.h`): the format code and the
data fields. -/
structure SentenceData where
  format : Str
  dataFields : List Str
  deriving DecidableEq, Repr

/-- `std::string::find_first_of(char)`: the index of the first occurrence, or
nothing (`npos`) when there is none. -/
def find_first_of (s : Str) (c : Byte) : Option Nat :=
  if find c s < s.length then some (find c s) else none

/-- The `size_t` result of a search stored in an `int`: an index is kept, and
`npos`, all bits set, becomes `-1`. -/
def posToInt : Option Nat → Int
  | some i => (i : Int)
  | none => -1

/-- `std::getline(stream, str, delim)` on what is left of a string stream: the
characters before the first delimiter, and the rest of the stream after that
delimiter; when no delimiter is left the whole remainder is extracted and the
stream is no longer `good()` (nothing is left). -/
def getline (delim : Byte) : Str → Str × Option Str
  | [] => ([], none)
  | c :: cs =>
    if c = delim then ([], some cs)
    else ((c :: (getline delim cs).1), (getline delim cs).2)

/-- The loop `while (ss.good()) { getline(ss, substr, ','); push_back(substr); }`
with the vector built so far; `fuel` bounds the number of iterations. -/
def splitLoop : Nat → Str → List Str → List Str
  | 0, _, data_fields_split => data_fields_split
  | fuel + 1, ss, data_fields_split =>
    match getline (ofChar ',') ss with
    | (field, none) => data_fields_split ++ [field]
    | (field, some rest) => splitLoop fuel rest (data_fields_split ++ [field])

/-- `NMEA::parseSentenceData`: asserts well-formedness, takes the three
characters from index 3 as the format, and splits on commas the substring that
starts one after the first comma and has `length - position - 4` characters.
Each iteration of the loop consumes a delimiter, so `length + 1` iterations
exhaust the stream. -/
def parseSentenceData (sentence : Str) : Except Failure SentenceData := do
  if !(← isWellFormedSentence sentence) then throw .assertion_failed
  let format ← substr sentence 3 3
  let postion_of_first_comma : Int := posToInt (find_first_of sentence (ofChar ','))
  let data_fields ← substr sentence (toSizeT (postion_of_first_comma + 1))
    (toSizeT ((sentence.length : Int) - postion_of_first_comma - 4))
  let data_fields_split := splitLoop (data_fields.length + 1) data_fields []
  return { format := format, dataFields := data_fields_split }

/-! ## The field extractor, the direction resolver and the interpreter -/

/-- `NMEA::getValueFromDataFields`: `std::find` of the marker, then the field
before it; throws when the marker is absent or is the first field. -/
def getValueFromDataFields (data : SentenceData) (to_find : Str) : Except Failure Str :=
  let found_direction := find to_find data.dataFields
  if found_direction ≠ data.dataFields.length then
    let index_direction_found : Int := (found_direction : Int)
    if index_direction_found < 1 then
      .error (.invalid_argument "Index found at position 0. No corresponding value found")
    else
      match data.dataFields[toSizeT (index_direction_found - 1)]? with
      | some value => .ok value
      | none => .error .undefined_behaviour
  else
    .error (.invalid_argument "Value not found.")

/-- `NMEA::PositionDataWithDirection` (declared in `parseNMEA.h`). -/
structure PositionDataWithDirection where
  value : Str
  direction : Byte
  deriving DecidableEq, Repr

/-- `NMEA::directionAndValueFinder`: looks the positive marker up when it is
among the fields, the negative marker otherwise. -/
def directionAndValueFinder (data : SentenceData) (to_find_positive to_find_negative : Str)
    (positive_char negative_char : Byte) : Except Failure PositionDataWithDirection :=
  let positve_direction_found :=
    find to_find_positive data.dataFields ≠ data.dataFields.length
  if positve_direction_found then do
    let value_found ← getValueFromDataFields data to_find_positive
    return { value := value_found, direction := positive_char }
  else do
    let value_found ← getValueFromDataFields data to_find_negative
    return { value := value_found, direction := negative_char }

/-- The five arguments of the constructor
`GPS::Position(latStr, latDir, lonStr, lonDir, eleStr)`. -/
structure PositionRequest where
  latitude : Str
  latitudeDirection : Byte
  longitude : Str
  longitudeDirection : Byte
  elevation : Str
  deriving DecidableEq, Repr

/-- `NMEA::interpretSentenceData`; `mkPosition` is the constructor of
`GPS::Position`, which may throw. -/
def interpretSentenceData {Position : Type} (mkPosition : PositionRequest → Except Failure Position)
    (data : SentenceData) : Except Failure Position := do
  if !isSupportedSentenceFormat data.format then
    throw (.invalid_argument "Invalid data format.")
  if (data.dataFields.length : Int) < 4 then
    throw (.invalid_argument "DataFields is not the required minimum size.")
  let mut elevation := lit "0"
  let format_requires_elevation := lit "GGA"
  if data.format = format_requires_elevation then
    elevation ← getValueFromDataFields data (lit "M")
  let latitude ← directionAndValueFinder data (lit "N") (lit "S") (ofChar 'N') (ofChar 'S')
  let longitude ← directionAndValueFinder data (lit "E") (lit "W") (ofChar 'E') (ofChar 'W')
  mkPosition
    { latitude := latitude.value, latitudeDirection := latitude.direction,
      longitude := longitude.value, longitudeDirection := longitude.direction,
      elevation := elevation }

/-! ## The log stream processor -/

/-- The body of the `while (std::getline(log, log_line))` loop of
`NMEA::positionsFromLog` over the lines still to be read, with the vector of
positions built so far.  A failure of `parseSentenceData` or of
`hasCorrectChecksum` is outside the `try` block and leaves the function; a
failure of `interpretSentenceData` is caught and the line is skipped. -/
def positionsFromLogLoop {Position : Type} (mkPosition : PositionRequest → Except Failure Position) :
    List Str → List Position → Except Failure (List Position)
  | [], vector_of_positions => .ok vector_of_positions
  | log_line :: rest, vector_of_positions => do
    if ← isWellFormedSentence log_line then
      let line_in_parsed_format ← parseSentenceData log_line
      let isCorrectFormat := isSupportedSentenceFormat line_in_parsed_format.format
      let isCorrectChecksum ← hasCorrectChecksum log_line
      if isCorrectChecksum && isCorrectFormat then
        match interpretSentenceData mkPosition line_in_parsed_format with
        | .ok sentenceData =>
          positionsFromLogLoop mkPosition rest (vector_of_positions ++ [sentenceData])
        | .error _ => positionsFromLogLoop mkPosition rest vector_of_positions
      else positionsFromLogLoop mkPosition rest vector_of_positions
    else positionsFromLogLoop mkPosition rest vector_of_positions

/-- `NMEA::positionsFromLog` on the lines of the stream. -/
def positionsFromLog {Position : Type} (mkPosition : PositionRequest → Except Failure Position)
    (log : List Str) : Except Failure (List Position) :=
  positionsFromLogLoop mkPosition log []


/-! ## Specification-side definitions -/

/-- An ASCII letter, `A` to `Z` or `a` to `z`. -/
def IsAsciiLetter (b : Byte) : Prop :=
  (65 ≤ b.val ∧ b.val ≤ 90) ∨ (97 ≤ b.val ∧ b.val ≤ 122)

/-- A hexadecimal digit, `0` to `9`, `A` to `F` or `a` to `f`. -/
def IsHexDigit (b : Byte) : Prop :=
  (48 ≤ b.val ∧ b.val ≤ 57) ∨ (65 ≤ b.val ∧ b.val ≤ 70) ∨ (97 ≤ b.val ∧ b.val ≤ 102)

/-- The six conditions of a well-formed line, as the specification lists
them. -/
def WellFormedSpec (s : Str) : Prop :=
  10 ≤ s.length ∧
  (s.count (ofChar '*') ≤ 1 ∧ s.count (ofChar '$') ≤ 1) ∧
  s.take 3 = lit "$GP" ∧
  (∀ i, 3 ≤ i → i ≤ 5 → ∃ b, s[i]? = some b ∧ IsAsciiLetter b) ∧
  s[s.length - 3]? = some (ofChar '*') ∧
  (∀ i, s.length - 2 ≤ i → i < s.length → ∃ b, s[i]? = some b ∧ IsHexDigit b)

/-- The bitwise xor of the raw byte values of a range, as an unsigned value. -/
def xorBytes (range : List Byte) : Nat := range.foldl (fun acc b => acc ^^^ b.val) 0

/-- The bytes strictly between the leading `$` and the `*` at `length - 3`:
those at the indices `1` to `length - 4`. -/
def payload (s : Str) : List Byte := (s.drop 1).take (s.length - 4)

/-- The base 16 value of the last two characters of a line. -/
def checksumValue (s : Str) : Nat :=
  16 * hexDigitValue (s.getD (s.length - 2) 0) + hexDigitValue (s.getD (s.length - 1) 0)

/-- A well-formed line with the byte `0x80` in its payload, whose checksum
digits `FC` are the xor of its payload bytes. -/
def highBitLine : Str := lit "$GPGLL," ++ [0x80] ++ lit "*FC"

/-- The contribution of one line to the result of the log processor: the
position of a line that is well-formed, has a correct checksum, carries a
supported format code in its bytes 3 to 5, and on which interpretation and
the position constructor succeed; nothing for every other line. -/
def lineResult {Position : Type} (mkPosition : PositionRequest → Except Failure Position)
    (line : Str) : Option Position :=
  if isWellFormedSentence line = .ok true ∧ hasCorrectChecksum line = .ok true
      ∧ isSupportedSentenceFormat ((line.drop 3).take 3) = true then
    match parseSentenceData line >>= interpretSentenceData mkPosition with
    | .ok position => some position
    | .error _ => none
  else none

/-- The line of the concrete scenario of the specification. -/
def sampleLine : Str := lit "$GPGLL,4916.45,N,12311.12,W,225444,A*31"

/-- Data fields in which the marker `M` occurs twice. -/
def markerTwice : SentenceData :=
  { format := lit "GGA", dataFields := [lit "a", lit "M", lit "b", lit "M"] }

/-- The data of the sample line. -/
def sampleData : SentenceData :=
  { format := lit "GLL",
    dataFields := [lit "4916.45", lit "N", lit "12311.12", lit "W", lit "225444", lit "A"] }

/-- Data fields with a northern latitude and an eastern longitude. -/
def northEast : SentenceData :=
  { format := lit "GLL",
    dataFields := [lit "225444", lit "48.1", lit "N", lit "11.5", lit "E", lit "A"] }

/-- The fields of `northEast` with the markers `S` and `W` in place of `N`
and `E`. -/
def southWest : SentenceData :=
  { format := lit "GLL",
    dataFields := [lit "225444", lit "48.1", lit "S", lit "11.5", lit "W", lit "A"] }

/-- Data of format `GGA` with two `M` markers, the first after the altitude. -/
def ggaData : SentenceData :=
  { format := lit "GGA",
    dataFields := [lit "4916.45", lit "N", lit "12311.12", lit "W", lit "545.4", lit "M",
      lit "46.9", lit "M"] }

/-- The fields of `ggaData` under the format `GLL`. -/
def gllDataWithM : SentenceData := { ggaData with format := lit "GLL" }

/-- The request the interpreter hands to the position constructor: the result
of `interpretSentenceData` with a constructor that records its arguments. -/
def positionRequest (data : SentenceData) : Except Failure PositionRequest :=
  interpretSentenceData (fun request => .ok request) data

/-- The loop of `NMEA::positionsFromLog` with the call of
`interpretSentenceData` taken as the parameter `interpret`: the same statements
in the same order, so that what the result owes to that call can be told from
what it owes to the conditions around it. -/
def positionsFromLogLoopWith {Position : Type}
    (interpret : SentenceData → Except Failure Position) :
    List Str → List Position → Except Failure (List Position)
  | [], vector_of_positions => .ok vector_of_positions
  | log_line :: rest, vector_of_positions => do
    if ← isWellFormedSentence log_line then
      let line_in_parsed_format ← parseSentenceData log_line
      let isCorrectFormat := isSupportedSentenceFormat line_in_parsed_format.format
      let isCorrectChecksum ← hasCorrectChecksum log_line
      if isCorrectChecksum && isCorrectFormat then
        match interpret line_in_parsed_format with
        | .ok sentenceData =>
          positionsFromLogLoopWith interpret rest (vector_of_positions ++ [sentenceData])
        | .error _ => positionsFromLogLoopWith interpret rest vector_of_positions
      else positionsFromLogLoopWith interpret rest vector_of_positions
    else positionsFromLogLoopWith interpret rest vector_of_positions

/-- Two bytes that are equal or are the two cases of one ASCII letter. -/
def SameUpToCase (a b : Byte) : Prop :=
  a = b ∨ (IsAsciiLetter a ∧ IsAsciiLetter b ∧ (b.val = a.val + 32 ∨ a.val = b.val + 32))

/-- A well-formed line with a correct checksum and the format code `XXX`. -/
def unsupportedLine : Str := lit "$GPXXX,4916.45,N,12311.12,W,225444,A*2E"

/-- A well-formed line with a correct checksum and the lower-case code `gga`. -/
def lowerCaseLine : Str := lit "$GPgga,4916.45,N,12311.12,W,1.0,M*35"

/-- The request of the concrete scenario of the specification. -/
def sampleRequest : PositionRequest :=
  { latitude := lit "4916.45", latitudeDirection := ofChar 'N',
    longitude := lit "12311.12", longitudeDirection := ofChar 'W',
    elevation := lit "0" }

/-- The sample line without its two checksum digits. -/
def sampleBody : Str := lit "$GPGLL,4916.45,N,12311.12,W,225444,A*"

/-- A well-formed line without a comma. -/
def noCommaLine : Str := lit "$GPGLLabc*00"

/-- A well-formed line whose only comma is followed by the `*`. -/
def emptyFieldLine : Str := lit "$GPGLL,*00"

/-- The hexadecimal digit of a value below 16, in upper case when `upper` is
set and in lower case otherwise. -/
def hexDigit (upper : Bool) (n : Nat) : Byte :=
  if n < 10 then Fin.ofNat (48 + n)
  else if upper then Fin.ofNat (55 + n) else Fin.ofNat (87 + n)

/-- The line `$`, payload, `*`, and two checksum characters. -/
def frame (p : Str) (h l : Byte) : Str := ofChar '$' :: p ++ [ofChar '*', h, l]

/-- The line `$`, payload, `*`, followed by the two-digit hexadecimal rendering
of the xor of the payload bytes, each digit in the letter case asked for. -/
def encode (upperHigh upperLow : Bool) (p : Str) : Str :=
  frame p (hexDigit upperHigh (xorBytes p / 16)) (hexDigit upperLow (xorBytes p % 16))

end NMEA

/-! ## GPX name formatting (`Task2-Refactoring/parseGPX.cpp`) -/

namespace GPX

open NMEA

/-- `std::string::find_first_not_of(char)`: the index of the first character
that differs from `c`, or nothing (`npos`) when there is none. -/
def find_first_not_of (s : Str) (c : Byte) : Option Nat :=
  if s.findIdx (fun x => x != c) < s.length then some (s.findIdx (fun x => x != c)) else none

/-- `std::string::find_last_not_of(char)`: the index of the last character
that differs from `c`, or nothing (`npos`) when there is none. -/
def find_last_not_of (s : Str) (c : Byte) : Option Nat :=
  if s.reverse.findIdx (fun x => x != c) < s.length then
    some (s.length - 1 - s.reverse.findIdx (fun x => x != c))
  else none

/-- `GPX::format_name`: when the name has a character that is not a space, the
substring that starts at the first such character and whose length argument
is the index of the last such character plus one; the empty string
otherwise. -/
def format_name (name : Str) : Except Failure Str := do
  let contains_non_white_space := name.any (fun c => !(c = ofChar ' '))
  let mut formatted_name : Str := []
  if contains_non_white_space then
    let first_non_white_space : Int := posToInt (find_first_not_of name (ofChar ' '))
    let last_non_white_space : Int := posToInt (find_last_not_of name (ofChar ' '))
    let position_after_last_white_space : Int := last_non_white_space + 1
    formatted_name ← substr name (toSizeT first_non_white_space)
      (toSizeT position_after_last_white_space)
  return formatted_name

/-- The name of the specification with all its leading and trailing spaces
removed. -/
def trimSpaces (name : Str) : Str :=
  ((name.dropWhile (fun c => c = ofChar ' ')).reverse.dropWhile (fun c => c = ofChar ' ')).reverse

end GPX

namespace NMEA

/-! ## Conversions and string primitives -/

theorem toSizeT_natCast (n : Nat) : toSizeT (n : Int) = n := by
  unfold toSizeT
  rw [if_neg (by omega)]; simp

theorem toSizeT_sub {n k : Nat} (h : k ≤ n) : toSizeT ((n : Int) - k) = n - k := by
  unfold toSizeT
  rw [if_neg (by omega)]; omega

theorem find_le_length {α : Type} [DecidableEq α] (a : α) (l : List α) :
    find a l ≤ l.length := by
  induction l with
  | nil => simp [find]
  | cons x xs ih =>
    unfold find
    split
    · omega
    · simp only [List.length_cons]; omega

theorem find_lt_length_iff {α : Type} [DecidableEq α] (a : α) (l : List α) :
    find a l < l.length ↔ a ∈ l := by
  induction l with
  | nil => simp [find]
  | cons x xs ih =>
    unfold find
    by_cases h : x = a
    · simp [h]
    · have h2 : ¬ a = x := fun e => h e.symm
      simp only [h, if_false, List.length_cons, Nat.add_lt_add_iff_right, ih, List.mem_cons, h2,
        false_or]

theorem find_eq_length_iff {α : Type} [DecidableEq α] (a : α) (l : List α) :
    find a l = l.length ↔ a ∉ l := by
  have h1 := find_le_length a l
  have h2 := find_lt_length_iff a l
  constructor
  · intro h hm
    have := h2.2 hm
    omega
  · intro h
    by_contra hne
    exact h (h2.1 (by omega))

theorem getElem?_find {α : Type} [DecidableEq α] (a : α) (l : List α) (h : a ∈ l) :
    l[find a l]? = some a := by
  induction l with
  | nil => cases h
  | cons x xs ih =>
    unfold find
    by_cases hx : x = a
    · simp [hx]
    · have hm : a ∈ xs := by
        rcases List.mem_cons.1 h with e | e
        · exact absurd e.symm hx
        · exact e
      simp only [hx, if_false, List.getElem?_cons_succ]
      exact ih hm

theorem not_of_lt_find {α : Type} [DecidableEq α] (a : α) (l : List α) (j : Nat)
    (h : j < find a l) : l[j]? ≠ some a := by
  induction l generalizing j with
  | nil => simp
  | cons x xs ih =>
    unfold find at h
    by_cases hx : x = a
    · simp [hx] at h
    · simp only [hx, if_false] at h
      cases j with
      | zero => simpa using hx
      | succ k =>
        simp only [List.getElem?_cons_succ]
        exact ih k (by omega)

/-- The index `find` returns is that of the first occurrence. -/
theorem find_eq_of_first {α : Type} [DecidableEq α] (l : List α) (a : α) (c : Nat)
    (hc : l[c]? = some a) (hfirst : ∀ j, j < c → l[j]? ≠ some a) : find a l = c := by
  induction l generalizing c with
  | nil => simp at hc
  | cons x xs ih =>
    unfold find
    cases c with
    | zero =>
      simp only [List.getElem?_cons_zero, Option.some.injEq] at hc
      simp [hc]
    | succ k =>
      have hx : x ≠ a := by
        intro e
        have := hfirst 0 (by omega)
        simp [e] at this
      simp only [hx, if_false, Nat.add_right_cancel_iff]
      apply ih k
      · simpa using hc
      · intro j hj
        have := hfirst (j + 1) (by omega)
        simpa using this

theorem substr_ok (s : Str) (pos count : Nat) (h : pos ≤ s.length) :
    substr s pos count = .ok ((s.drop pos).take count) := by
  unfold substr
  rw [if_neg (by omega)]

theorem index_ok (s : Str) (i : Nat) (h : i < s.length) :
    index s (i : Int) = .ok s[i] := by
  unfold index
  simp [toSizeT_natCast, h]

theorem isalpha_iff (b : Byte) : isalpha b = true ↔ IsAsciiLetter b := by
  have hA : (ofChar 'A').val = 65 := by decide
  have hZ : (ofChar 'Z').val = 90 := by decide
  have ha : (ofChar 'a').val = 97 := by decide
  have hz : (ofChar 'z').val = 122 := by decide
  simp only [isalpha, IsAsciiLetter, Fin.le_def, hA, hZ, ha, hz, Bool.or_eq_true,
    Bool.and_eq_true, decide_eq_true_eq]

theorem isxdigit_iff (b : Byte) : isxdigit b = true ↔ IsHexDigit b := by
  have h0 : (ofChar '0').val = 48 := by decide
  have h9 : (ofChar '9').val = 57 := by decide
  have hA : (ofChar 'A').val = 65 := by decide
  have hF : (ofChar 'F').val = 70 := by decide
  have ha : (ofChar 'a').val = 97 := by decide
  have hf : (ofChar 'f').val = 102 := by decide
  simp only [isxdigit, IsHexDigit, Fin.le_def, h0, h9, hA, hF, ha, hf, Bool.or_eq_true,
    Bool.and_eq_true, decide_eq_true_eq, or_assoc]

/-! ## The well-formedness validator -/

theorem isWellFormedSentence_short (s : Str) (h : s.length < 10) :
    isWellFormedSentence s = .ok false := by
  unfold isWellFormedSentence
  simp [h, pure, Except.pure]

theorem isWellFormedSentence_eq (s : Str) (hlen : 10 ≤ s.length) :
    isWellFormedSentence s = .ok (decide (s.count (ofChar '*') ≤ 1) && decide (s.count (ofChar '$') ≤ 1)
      && decide (s.take 3 = lit "$GP") && ((s.drop 3).take 3).all isalpha
      && decide (s[s.length - 3]? = some (ofChar '*')) && (s.drop (s.length - 2)).all isxdigit) := by
  unfold isWellFormedSentence
  have h1 : toSizeT ((s.length : Int) - 2) = s.length - 2 := by
    have := @toSizeT_sub s.length 2 (by omega); simpa using this
  have h2 : index s ((s.length : Int) - 3) = .ok s[s.length - 3] := by
    have := index_ok s (s.length - 3) (by omega)
    rw [← this]; congr 1; omega
  simp [substr_ok, hlen, h1, h2, count]
  have h3 : substr s 3 3 = .ok ((s.drop 3).take 3) := substr_ok s 3 3 (by omega)
  have h4 : (s.drop (s.length - 2)).take npos = s.drop (s.length - 2) := by
    apply List.take_of_length_le
    simp [npos]; omega
  have h5 : s[s.length - 3]? = some s[s.length - 3] := by simp
  rw [h3, h4, h5]
  have hl : ¬ s.length < 10 := by omega
  simp only [hl, if_false]
  by_cases c1 : 1 < List.count (ofChar '*') s
  · simp [c1, pure, Except.pure]
  by_cases c2 : 1 < List.count (ofChar '$') s
  · simp [c2, pure, Except.pure]
  by_cases c3 : List.take 3 s = lit "$GP"
  swap
  · simp [c1, c2, c3, pure, Except.pure, bind, Except.bind]
  by_cases c4 : ∃ x ∈ List.take 3 (List.drop 3 s), isalpha x = false
  · have : (List.take 3 (List.drop 3 s)).all isalpha = false := by
      simpa [List.all_eq_false] using c4
    simp [c1, c2, c3, c4, this, pure, Except.pure, bind, Except.bind]
  have c4' : (List.take 3 (List.drop 3 s)).all isalpha = true := by
    simpa [List.all_eq_true] using c4
  by_cases c5 : s[s.length - 3] = ofChar '*'
  swap
  · simp [c1, c2, c3, c4, c5, pure, Except.pure, bind, Except.bind]
  by_cases c6 : ∃ x ∈ List.drop (s.length - 2) s, isxdigit x = false
  · have : (List.drop (s.length - 2) s).all isxdigit = false := by
      simpa [List.all_eq_false] using c6
    simp [c1, c2, c3, c4, c5, c6, this, pure, Except.pure, bind, Except.bind]
  have c6' : (List.drop (s.length - 2) s).all isxdigit = true := by
    simpa [List.all_eq_true] using c6
  have c1' : List.count (ofChar '*') s ≤ 1 := by omega
  have c2' : List.count (ofChar '$') s ≤ 1 := by omega
  simp [c1, c2, c3, c4, c4', c5, c6, c6', c1', c2', pure, Except.pure, bind, Except.bind]

theorem all_take_drop_iff (s : Str) (p : Byte → Bool) (a n : Nat) (h : a + n ≤ s.length) :
    ((s.drop a).take n).all p = true ↔ ∀ i, a ≤ i → i < a + n → ∃ b, s[i]? = some b ∧ p b = true := by
  rw [List.all_eq_true]
  constructor
  · intro hall i hi1 hi2
    have hlt : i < s.length := by omega
    refine ⟨s[i], by simp [hlt], hall _ ?_⟩
    rw [List.mem_iff_getElem?]
    refine ⟨i - a, ?_⟩
    rw [List.getElem?_take_of_lt (by omega), List.getElem?_drop]
    have : a + (i - a) = i := by omega
    simp [this, hlt]
  · intro hall x hx
    rw [List.mem_iff_getElem?] at hx
    obtain ⟨j, hj⟩ := hx
    have hjn : j < n := by
      by_contra hcon
      rw [List.getElem?_take_eq_none (by omega)] at hj
      exact absurd hj (by simp)
    rw [List.getElem?_take_of_lt hjn, List.getElem?_drop] at hj
    obtain ⟨b, hb, hp⟩ := hall (a + j) (by omega) (by omega)
    rw [hj] at hb
    cases hb
    exact hp

theorem isWellFormedSentence_true_iff (s : Str) :
    isWellFormedSentence s = .ok true ↔ WellFormedSpec s := by
  by_cases hlen : 10 ≤ s.length
  · rw [isWellFormedSentence_eq s hlen]
    have ha := all_take_drop_iff s isalpha 3 3 (by omega)
    have hx := all_take_drop_iff s isxdigit (s.length - 2) 2 (by omega)
    have hd : (s.drop (s.length - 2)).take 2 = s.drop (s.length - 2) :=
      List.take_of_length_le (by simp; omega)
    rw [hd] at hx
    simp only [Except.ok.injEq, Bool.and_eq_true, decide_eq_true_eq, ha, hx, WellFormedSpec,
      isalpha_iff, isxdigit_iff]
    constructor
    · rintro ⟨⟨⟨⟨⟨h1, h2⟩, h3⟩, h4⟩, h5⟩, h6⟩
      refine ⟨hlen, ⟨h1, h2⟩, h3, fun i hi1 hi2 => h4 i hi1 (by omega), h5,
        fun i hi1 hi2 => h6 i hi1 (by omega)⟩
    · rintro ⟨-, ⟨h1, h2⟩, h3, h4, h5, h6⟩
      refine ⟨⟨⟨⟨⟨h1, h2⟩, h3⟩, fun i hi1 hi2 => h4 i hi1 (by omega)⟩, h5⟩,
        fun i hi1 hi2 => h6 i hi1 (by omega)⟩
  · rw [isWellFormedSentence_short s (by omega)]
    constructor
    · intro h; cases h
    · intro h; exact absurd h.1 hlen

theorem isWellFormedSentence_total (s : Str) :
    isWellFormedSentence s = .ok true ∨ isWellFormedSentence s = .ok false := by
  by_cases hlen : 10 ≤ s.length
  · rw [isWellFormedSentence_eq s hlen]
    cases (decide (s.count (ofChar '*') ≤ 1) && decide (s.count (ofChar '$') ≤ 1)
      && decide (s.take 3 = lit "$GP") && ((s.drop 3).take 3).all isalpha
      && decide (s[s.length - 3]? = some (ofChar '*')) && (s.drop (s.length - 2)).all isxdigit)
    · exact Or.inr rfl
    · exact Or.inl rfl
  · exact Or.inr (isWellFormedSentence_short s (by omega))

/-- C1: `isWellFormedSentence` never fails, it returns `true` exactly when the
six conditions hold (length at least 10; at most one `*` and at most one `$`;
the first three bytes are `$GP`; bytes 3, 4, 5 are ASCII letters; the byte at
`length - 3` is `*`; the last two bytes are hexadecimal digits), and it returns
`false` on every string shorter than 10 bytes, the empty string included. -/
theorem isWellFormedSentence_spec (s : Str) :
    (isWellFormedSentence s = .ok true ∨ isWellFormedSentence s = .ok false) ∧
    (isWellFormedSentence s = .ok true ↔ WellFormedSpec s) ∧
    (s.length < 10 → isWellFormedSentence s = .ok false) ∧
    isWellFormedSentence [] = .ok false :=
  ⟨isWellFormedSentence_total s, isWellFormedSentence_true_iff s,
    isWellFormedSentence_short s, isWellFormedSentence_short [] (by decide)⟩

/-! ## The checksum verifier -/

theorem intToChar_charToInt (a : Byte) : intToChar (charToInt a) = a := by
  apply Fin.ext
  have ha := a.isLt
  unfold intToChar charToInt
  simp only [Fin.ofNat, Fin.val_mk]
  split <;> omega

theorem bit_xor_char_val (a b : Byte) : (bit_xor_char a b).val = a.val ^^^ b.val := by
  have h : a.val ^^^ b.val < 2 ^ 8 := Nat.xor_lt_two_pow a.isLt b.isLt
  unfold bit_xor_char
  simp only [Fin.ofNat, Fin.val_mk]
  omega

theorem foldl_step_charToInt (range : List Byte) (a : Byte) :
    range.foldl (fun acc c => charToInt (bit_xor_char (intToChar acc) c)) (charToInt a)
      = charToInt (range.foldl bit_xor_char a) := by
  induction range generalizing a with
  | nil => rfl
  | cons c cs ih =>
    simp only [List.foldl_cons, intToChar_charToInt]
    exact ih _

theorem foldl_bit_xor_char_val (range : List Byte) (a : Byte) :
    (range.foldl bit_xor_char a).val = range.foldl (fun acc b => acc ^^^ b.val) a.val := by
  induction range generalizing a with
  | nil => rfl
  | cons c cs ih =>
    simp only [List.foldl_cons]
    rw [ih, bit_xor_char_val]

theorem xorBytes_lt (range : List Byte) : xorBytes range < 256 := by
  have := foldl_bit_xor_char_val range 0
  unfold xorBytes
  have h0 : ((0 : Byte).val) = 0 := rfl
  rw [h0] at this
  rw [← this]
  exact (range.foldl bit_xor_char 0).isLt

/-- The accumulator of the source ends as the xor of the bytes read back as a
signed `char`: the xor itself below 128, the xor minus 256 from 128 on. -/
theorem accumulate_eq (range : List Byte) :
    accumulate range 0 = if xorBytes range < 128 then (xorBytes range : Int)
      else (xorBytes range : Int) - 256 := by
  have h := foldl_step_charToInt range 0
  have h0 : charToInt 0 = 0 := by decide
  rw [h0] at h
  unfold accumulate
  rw [h]
  unfold charToInt
  rw [foldl_bit_xor_char_val]
  rfl

theorem isxdigit_not_space_sign (b : Byte) (h : isxdigit b = true) :
    isspace b = false ∧ b ≠ ofChar '-' ∧ b ≠ ofChar '+' := by
  rw [isxdigit_iff] at h
  unfold IsHexDigit at h
  refine ⟨?_, ?_, ?_⟩
  · have h9 : ((9 : Byte).val) = 9 := rfl
    have h13 : ((13 : Byte).val) = 13 := rfl
    have h32 : ((32 : Byte).val) = 32 := rfl
    have hne : b ≠ 32 := fun e => by rw [e, h32] at h; omega
    simp only [isspace, Fin.le_def, h9, h13, hne, decide_False, Bool.false_or,
      Bool.and_eq_false_iff, decide_eq_false_iff_not]
    omega
  · intro e
    have : (ofChar '-').val = 45 := by decide
    rw [e, this] at h; omega
  · intro e
    have : (ofChar '+').val = 43 := by decide
    rw [e, this] at h; omega

theorem hexDigitValue_le (b : Byte) (h : isxdigit b = true) : hexDigitValue b ≤ 15 := by
  rw [isxdigit_iff] at h
  unfold IsHexDigit at h
  have h0 : (ofChar '0').val = 48 := by decide
  have h9 : (ofChar '9').val = 57 := by decide
  have hA : (ofChar 'A').val = 65 := by decide
  have hF : (ofChar 'F').val = 70 := by decide
  unfold hexDigitValue
  simp only [Fin.le_def, h0, h9, hA, hF, Bool.and_eq_true, decide_eq_true_eq]
  split
  · omega
  · split <;> omega

/-- The conversion of two base 16 digits succeeds with their value. -/
theorem stoi16_two_digits (h l : Byte) (hh : isxdigit h = true) (hl : isxdigit l = true) :
    stoi16 [h, l] = .ok ((16 * hexDigitValue h + hexDigitValue l : Nat) : Int) := by
  obtain ⟨hs, hm, hp⟩ := isxdigit_not_space_sign h hh
  have b1 := hexDigitValue_le h hh
  have b2 := hexDigitValue_le l hl
  unfold stoi16
  simp only [List.dropWhile, hs, hm, hp, if_false, List.takeWhile, hh, hl, List.isEmpty_cons,
    List.foldl_cons, List.foldl_nil, Bool.false_eq_true]
  simp only [mul_zero, zero_add, Bool.or_eq_true, decide_eq_true_eq]
  rw [if_neg (by omega)]
  congr 1

theorem drop_last_two (s : Str) (h : 2 ≤ s.length) :
    s.drop (s.length - 2) = [s.getD (s.length - 2) 0, s.getD (s.length - 1) 0] := by
  have h1 : s.length - 2 < s.length := by omega
  have h2 : s.length - 2 + 1 < s.length := by omega
  have e : s.length - 2 + 1 + 1 = s.length := by omega
  have e1 : s.length - 2 + 1 = s.length - 1 := by omega
  rw [List.drop_eq_getElem_cons h1, List.drop_eq_getElem_cons h2, e, List.drop_length]
  have h3 : s.length - 1 < s.length := by omega
  simp [List.getD_eq_getElem?_getD, h1, e1, h3]

theorem isWellFormedSentence_hex (s : Str) (h : isWellFormedSentence s = .ok true) :
    isxdigit (s.getD (s.length - 2) 0) = true ∧ isxdigit (s.getD (s.length - 1) 0) = true := by
  rw [isWellFormedSentence_true_iff] at h
  obtain ⟨hlen, -, -, -, -, h6⟩ := h
  obtain ⟨a, ha, hxa⟩ := h6 (s.length - 2) (by omega) (by omega)
  obtain ⟨b, hb, hxb⟩ := h6 (s.length - 1) (by omega) (by omega)
  simp only [List.getD_eq_getElem?_getD, ha, hb, Option.getD_some, isxdigit_iff]
  exact ⟨hxa, hxb⟩

theorem take_drop_payload (s : Str) : (s.take (s.length - 3)).drop 1 = payload s := by
  unfold payload
  rw [List.drop_take]
  congr 1

/-- On a well-formed line the checksum verifier returns, and its answer is the
comparison of the base 16 value with the signed accumulator. -/
theorem hasCorrectChecksum_eq (s : Str) (h : isWellFormedSentence s = .ok true) :
    hasCorrectChecksum s
      = .ok (decide ((checksumValue s : Int) = accumulate (payload s) 0)) := by
  have hlen : 10 ≤ s.length := ((isWellFormedSentence_true_iff s).1 h).1
  obtain ⟨hx1, hx2⟩ := isWellFormedSentence_hex s h
  have h1 : toSizeT ((s.length : Int) - 2) = s.length - 2 := by
    have := @toSizeT_sub s.length 2 (by omega); simpa using this
  have h4 : (s.drop (s.length - 2)).take npos = s.drop (s.length - 2) := by
    apply List.take_of_length_le
    simp [npos]; omega
  unfold hasCorrectChecksum
  rw [h, h1, substr_ok s _ _ (by omega), h4, drop_last_two s (by omega)]
  simp only [bind, Except.bind, stoi16_two_digits _ _ hx1 hx2, take_drop_payload]
  simp only [checksumValue, pure, Except.pure, List.getD_eq_getElem?_getD]
  congr 1

/-- On a well-formed line the verifier answers `true` exactly when the xor of
the payload bytes equals the base 16 value and is below 128. -/
theorem hasCorrectChecksum_true_iff (s : Str) (h : isWellFormedSentence s = .ok true) :
    hasCorrectChecksum s = .ok true
      ↔ xorBytes (payload s) = checksumValue s ∧ xorBytes (payload s) < 128 := by
  rw [hasCorrectChecksum_eq s h, accumulate_eq]
  simp only [Except.ok.injEq, decide_eq_true_eq]
  by_cases hx : xorBytes (payload s) < 128
  · rw [if_pos hx]
    constructor
    · intro hh; exact ⟨by exact_mod_cast hh.symm, hx⟩
    · intro hh; exact_mod_cast hh.1.symm
  · rw [if_neg hx]
    constructor
    · intro hh
      have hlt := xorBytes_lt (payload s)
      omega
    · intro hh; exact absurd hh.2 hx

/-- C2, at the failing input: the line `highBitLine` is well-formed, the xor of
its payload bytes taken as an unsigned value is 252, the base 16 value of its
last two characters is 252 as well, and `hasCorrectChecksum` answers `false`. -/
theorem hasCorrectChecksum_highBitLine :
    isWellFormedSentence highBitLine = .ok true ∧
    xorBytes (payload highBitLine) = 252 ∧
    checksumValue highBitLine = 252 ∧
    hasCorrectChecksum highBitLine = .ok false := by
  decide

/-! ## The sentence splitter -/

theorem getline_none (d : Byte) (ss : Str) (h : (getline d ss).2 = none) :
    d ∉ ss ∧ (getline d ss).1 = ss := by
  induction ss with
  | nil => simp [getline]
  | cons c cs ih =>
    unfold getline at h ⊢
    by_cases hc : c = d
    · simp [hc] at h
    · simp only [hc, if_false] at h ⊢
      obtain ⟨h1, h2⟩ := ih h
      refine ⟨?_, by rw [h2]⟩
      simp only [List.mem_cons, not_or]
      exact ⟨fun e => hc e.symm, h1⟩

theorem getline_some (d : Byte) (ss rest : Str) (h : (getline d ss).2 = some rest) :
    ss = (getline d ss).1 ++ d :: rest ∧ d ∉ (getline d ss).1 := by
  induction ss with
  | nil => simp [getline] at h
  | cons c cs ih =>
    unfold getline at h ⊢
    by_cases hc : c = d
    · simp only [hc, if_true, Option.some.injEq] at h ⊢
      simp [h]
    · simp only [hc, if_false] at h ⊢
      obtain ⟨h1, h2⟩ := ih h
      refine ⟨?_, ?_⟩
      · rw [List.cons_append, ← h1]
      · simp only [List.mem_cons, not_or]
        exact ⟨fun e => hc e.symm, h2⟩

/-- With enough iterations the loop appends to the vector the pieces of the
stream between its commas, empty pieces included. -/
theorem splitLoop_eq (fuel : Nat) (ss : Str) (acc : List Str) (h : ss.length < fuel) :
    splitLoop fuel ss acc = acc ++ ss.splitOn (ofChar ',') := by
  induction fuel generalizing ss acc with
  | zero => omega
  | succ n ih =>
    unfold splitLoop
    rcases hg : getline (ofChar ',') ss with ⟨field, r⟩
    cases r with
    | none =>
      have h2 : (getline (ofChar ',') ss).2 = none := by rw [hg]
      obtain ⟨hn, he⟩ := getline_none _ _ h2
      rw [hg] at he
      simp only at he ⊢
      subst he
      have : List.splitOn (ofChar ',') field = [field] := by
        unfold List.splitOn
        apply List.splitOnP_eq_single
        intro x hx hb
        have : x = ofChar ',' := by simpa using hb
        exact hn (this ▸ hx)
      rw [this]
    | some rest =>
      have h2 : (getline (ofChar ',') ss).2 = some rest := by rw [hg]
      obtain ⟨he, hn⟩ := getline_some _ _ _ h2
      rw [hg] at he hn
      simp only at he hn ⊢
      have hl : rest.length < n := by
        have := congrArg List.length he
        simp at this
        omega
      rw [ih rest _ hl]
      have : List.splitOn (ofChar ',') ss = field :: List.splitOn (ofChar ',') rest := by
        rw [he]
        unfold List.splitOn
        apply List.splitOnP_first
        · intro x hx hb
          have : x = ofChar ',' := by simpa using hb
          exact hn (this ▸ hx)
        · simp
      rw [this]
      simp

/-- The first comma of a well-formed line lies before the `*`. -/
theorem first_comma_bound (s : Str) (hwf : isWellFormedSentence s = .ok true)
    (hc : ofChar ',' ∈ s) : find (ofChar ',') s + 4 ≤ s.length := by
  have hlt : find (ofChar ',') s < s.length := (find_lt_length_iff _ _).2 hc
  have hget : s[find (ofChar ',') s]? = some (ofChar ',') := getElem?_find _ _ hc
  rw [isWellFormedSentence_true_iff] at hwf
  obtain ⟨hlen, -, -, -, h5, h6⟩ := hwf
  by_contra hcon
  have hcv : (ofChar ',').val = 44 := by decide
  by_cases h3 : find (ofChar ',') s = s.length - 3
  · rw [h3, h5] at hget
    have : ofChar '*' = ofChar ',' := by simpa using hget
    exact absurd this (by decide)
  · obtain ⟨b, hb, hx⟩ := h6 (find (ofChar ',') s) (by omega) hlt
    rw [hget] at hb
    cases hb
    unfold IsHexDigit at hx
    omega

theorem parseSentenceData_comma (s : Str) (hwf : isWellFormedSentence s = .ok true)
    (hc : ofChar ',' ∈ s) :
    parseSentenceData s = .ok
      { format := (s.drop 3).take 3,
        dataFields := List.splitOn (ofChar ',')
          ((s.take (s.length - 3)).drop (find (ofChar ',') s + 1)) } := by
  have hb := first_comma_bound s hwf hc
  have hlt : find (ofChar ',') s < s.length := (find_lt_length_iff _ _).2 hc
  have hlen : 10 ≤ s.length := ((isWellFormedSentence_true_iff s).1 hwf).1
  have e1 : toSizeT ((find (ofChar ',') s : Int) + 1) = find (ofChar ',') s + 1 := by
    have := toSizeT_natCast (find (ofChar ',') s + 1)
    simpa using this
  have e2 : toSizeT ((s.length : Int) - (find (ofChar ',') s : Int) - 4)
      = s.length - 3 - (find (ofChar ',') s + 1) := by
    have := @toSizeT_sub s.length (find (ofChar ',') s + 4) hb
    have e : ((s.length : Int) - (find (ofChar ',') s : Int) - 4)
        = (s.length : Int) - ((find (ofChar ',') s + 4 : Nat) : Int) := by push_cast; ring
    rw [e, this]; omega
  unfold parseSentenceData
  simp only [hwf, find_first_of, hlt, if_true, posToInt, e1, e2, substr_ok s 3 3 (by omega),
    substr_ok s _ _ (show find (ofChar ',') s + 1 ≤ s.length by omega), bind, Except.bind,
    Bool.not_true, Bool.false_eq_true, if_false, pure, Except.pure]
  rw [splitLoop_eq _ _ _ (Nat.lt_succ_self _), List.drop_take]
  simp

theorem parseSentenceData_no_comma (s : Str) (hwf : isWellFormedSentence s = .ok true)
    (hc : ofChar ',' ∉ s) :
    parseSentenceData s = .ok
      { format := (s.drop 3).take 3, dataFields := [s.take (s.length - 3)] } := by
  have hlt : ¬ find (ofChar ',') s < s.length := fun h => hc ((find_lt_length_iff _ _).1 h)
  have hlen : 10 ≤ s.length := ((isWellFormedSentence_true_iff s).1 hwf).1
  have e1 : toSizeT ((-1 : Int) + 1) = 0 := by decide
  have e2 : toSizeT ((s.length : Int) - (-1) - 4) = s.length - 3 := by
    have := @toSizeT_sub s.length 3 (by omega)
    have e : ((s.length : Int) - (-1) - 4) = (s.length : Int) - ((3 : Nat) : Int) := by
      push_cast; ring
    rw [e, this]
  unfold parseSentenceData
  simp only [hwf, find_first_of, hlt, if_false, posToInt, e1, e2, substr_ok s 3 3 (by omega),
    substr_ok s 0 _ (Nat.zero_le _), bind, Except.bind,
    Bool.not_true, Bool.false_eq_true, pure, Except.pure]
  rw [splitLoop_eq _ _ _ (Nat.lt_succ_self _)]
  have : List.splitOn (ofChar ',') (List.take (s.length - 3) (List.drop 0 s))
      = [s.take (s.length - 3)] := by
    unfold List.splitOn
    apply List.splitOnP_eq_single
    intro x hx hbq
    have hxe : x = ofChar ',' := by simpa using hbq
    exact hc (hxe ▸ List.mem_of_mem_take hx)
  rw [this]
  simp

/-- The splitter returns on every well-formed line. -/
theorem parseSentenceData_ok (s : Str) (hwf : isWellFormedSentence s = .ok true) :
    ∃ d, parseSentenceData s = .ok d ∧ d.format = (s.drop 3).take 3 := by
  by_cases hc : ofChar ',' ∈ s
  · exact ⟨_, parseSentenceData_comma s hwf hc, rfl⟩
  · exact ⟨_, parseSentenceData_no_comma s hwf hc, rfl⟩

theorem parseSentenceData_not_wf (s : Str) (hwf : isWellFormedSentence s = .ok false) :
    parseSentenceData s = .error .assertion_failed := by
  unfold parseSentenceData
  simp [hwf, bind, Except.bind, throw, throwThe, MonadExceptOf.throw]

theorem hasCorrectChecksum_not_wf (s : Str) (hwf : isWellFormedSentence s = .ok false) :
    hasCorrectChecksum s = .error .assertion_failed := by
  unfold hasCorrectChecksum
  simp [hwf, bind, Except.bind, throw, throwThe, MonadExceptOf.throw]

/-- C5: on a well-formed line with a comma, the first at index `c`,
`parseSentenceData` returns as format the three characters at the indices 3 to
5, and as data fields the pieces, in order and with the empty ones, into which
the commas split the characters from index `c + 1` up to, not including, the
`*` at `length - 3`; joining the fields with commas gives these characters. -/
theorem parseSentenceData_spec (s : Str) (c : Nat)
    (hwf : isWellFormedSentence s = .ok true)
    (hc : s[c]? = some (ofChar ','))
    (hfirst : ∀ j, j < c → s[j]? ≠ some (ofChar ',')) :
    ∃ d, parseSentenceData s = .ok d ∧
      d.format = (s.drop 3).take 3 ∧ d.format.length = 3 ∧
      d.dataFields = List.splitOn (ofChar ',') ((s.take (s.length - 3)).drop (c + 1)) ∧
      [ofChar ','].intercalate d.dataFields = (s.take (s.length - 3)).drop (c + 1) := by
  have hmem : ofChar ',' ∈ s := List.getElem?_mem hc
  have hlen : 10 ≤ s.length := ((isWellFormedSentence_true_iff s).1 hwf).1
  have hidx : find (ofChar ',') s = c := find_eq_of_first s _ c hc hfirst
  refine ⟨_, parseSentenceData_comma s hwf hmem, rfl, ?_, ?_, ?_⟩
  · simp; omega
  · rw [hidx]
  · rw [hidx]
    exact List.intercalate_splitOn _ (ofChar ',')

/-- C5 at the sample line, whose first comma is at index 6. -/
theorem parseSentenceData_spec_witness :
    ∃ d, parseSentenceData sampleLine = .ok d ∧
      d.format = (sampleLine.drop 3).take 3 ∧ d.format.length = 3 ∧
      d.dataFields = List.splitOn (ofChar ',')
        ((sampleLine.take (sampleLine.length - 3)).drop (6 + 1)) ∧
      [ofChar ','].intercalate d.dataFields
        = (sampleLine.take (sampleLine.length - 3)).drop (6 + 1) :=
  parseSentenceData_spec sampleLine 6 (by decide) (by decide) (by decide)

/-! ## The log stream processor -/

/-- One iteration of the loop: the line is skipped, or its position is pushed
to the vector, and nothing escapes. -/
theorem positionsFromLogLoop_cons {Position : Type}
    (mk : PositionRequest → Except Failure Position) (line : Str) (rest : List Str)
    (acc : List Position) :
    positionsFromLogLoop mk (line :: rest) acc
      = positionsFromLogLoop mk rest (acc ++ (lineResult mk line).toList) := by
  rw [positionsFromLogLoop]
  rcases isWellFormedSentence_total line with hwf | hwf
  · obtain ⟨d, hd, hfmt⟩ := parseSentenceData_ok line hwf
    have hck := hasCorrectChecksum_eq line hwf
    simp only [hwf, hd, hck, bind, Except.bind, if_true]
    unfold lineResult
    simp only [hwf, hd, hck, bind, Except.bind, ← hfmt, true_and,
      Except.ok.injEq, decide_eq_true_eq]
    by_cases hc : (checksumValue line : Int) = accumulate (payload line) 0
    · by_cases hs : isSupportedSentenceFormat d.format = true
      · simp only [hc, hs, decide_True, Bool.and_self, if_true, and_self]
        cases hi : interpretSentenceData mk d with
        | ok p => simp only [Option.toList]
        | error e => simp only [Option.toList, List.append_nil]
      · simp only [hc, hs, decide_True, Bool.true_and, if_false, and_false,
          Bool.false_eq_true, Option.toList, List.append_nil]
    · simp only [hc, decide_False, Bool.false_and, Bool.false_eq_true, if_false, false_and,
        Option.toList, List.append_nil]
  · have hne : ¬ ((Except.ok false : Except Failure Bool) = Except.ok true) := by decide
    unfold lineResult
    simp only [hwf, bind, Except.bind, Bool.false_eq_true, if_false, hne,
      false_and, Option.toList, List.append_nil]

/-- The loop returns, with the positions of the accepted lines appended in
their order. -/
theorem positionsFromLogLoop_eq {Position : Type}
    (mk : PositionRequest → Except Failure Position) (log : List Str) (acc : List Position) :
    positionsFromLogLoop mk log acc = .ok (acc ++ log.filterMap (lineResult mk)) := by
  induction log generalizing acc with
  | nil => simp [positionsFromLogLoop]
  | cons line rest ih =>
    rw [positionsFromLogLoop_cons, ih, List.filterMap_cons]
    cases lineResult mk line with
    | none => simp [Option.toList]
    | some p => simp [Option.toList]

/-- C3: `positionsFromLog` returns the list obtained by mapping, in the order
of the input, every line that is well-formed, has a correct checksum and a
supported format code, and on which `interpretSentenceData` of
`parseSentenceData` succeeds, to the position so constructed; every other line
contributes nothing. -/
theorem positionsFromLog_filterMap {Position : Type}
    (mk : PositionRequest → Except Failure Position) (log : List Str) :
    positionsFromLog mk log = .ok (log.filterMap (lineResult mk)) := by
  unfold positionsFromLog
  rw [positionsFromLogLoop_eq, List.nil_append]

/-- C4: `positionsFromLog` returns on every input and with every position
constructor; on a well-formed line the base 16 conversion, the checksum
verifier and the splitter return; a line that is not well-formed, on which the
two would abort on their assertion, is skipped before they are called; and a
line on which interpretation or the constructor fails is skipped. -/
theorem positionsFromLog_no_escape {Position : Type}
    (mk : PositionRequest → Except Failure Position) (log : List Str) :
    (∃ positions, positionsFromLog mk log = .ok positions) ∧
    (∀ line, isWellFormedSentence line = .ok true →
      (∃ v, stoi16 (line.drop (line.length - 2)) = .ok v) ∧
      (∃ b, hasCorrectChecksum line = .ok b) ∧
      (∃ d, parseSentenceData line = .ok d)) ∧
    (∀ line, isWellFormedSentence line = .ok false →
      hasCorrectChecksum line = .error .assertion_failed ∧
      parseSentenceData line = .error .assertion_failed ∧
      ∀ rest acc, positionsFromLogLoop mk (line :: rest) acc
        = positionsFromLogLoop mk rest acc) ∧
    (∀ line d e, parseSentenceData line = .ok d → interpretSentenceData mk d = .error e →
      ∀ rest acc, positionsFromLogLoop mk (line :: rest) acc
        = positionsFromLogLoop mk rest acc) := by
  refine ⟨⟨_, positionsFromLogLoop_eq mk log []⟩, ?_, ?_, ?_⟩
  · intro line hwf
    have hlen : 10 ≤ line.length := ((isWellFormedSentence_true_iff line).1 hwf).1
    obtain ⟨hx1, hx2⟩ := isWellFormedSentence_hex line hwf
    obtain ⟨d, hd, -⟩ := parseSentenceData_ok line hwf
    refine ⟨?_, ⟨_, hasCorrectChecksum_eq line hwf⟩, ⟨d, hd⟩⟩
    rw [drop_last_two line (by omega)]
    exact ⟨_, stoi16_two_digits _ _ hx1 hx2⟩
  · intro line hwf
    refine ⟨hasCorrectChecksum_not_wf line hwf, parseSentenceData_not_wf line hwf, ?_⟩
    intro rest acc
    have hne : ¬ ((Except.ok false : Except Failure Bool) = Except.ok true) := by decide
    rw [positionsFromLogLoop_cons]
    unfold lineResult
    simp only [hwf, hne, false_and, if_false, Option.toList, List.append_nil]
  · intro line d e hd hi rest acc
    rw [positionsFromLogLoop_cons]
    unfold lineResult
    simp only [hd, hi, bind, Except.bind]
    split <;> simp only [Option.toList, List.append_nil]

/-! ## The field extractor -/

/-- The three outcomes of the field extractor, by the index `find`
returns. -/
theorem getValueFromDataFields_eq (d : SentenceData) (m : Str) :
    getValueFromDataFields d m =
      if find m d.dataFields = d.dataFields.length then
        .error (.invalid_argument "Value not found.")
      else if find m d.dataFields = 0 then
        .error (.invalid_argument "Index found at position 0. No corresponding value found")
      else .ok (d.dataFields.getD (find m d.dataFields - 1) []) := by
  unfold getValueFromDataFields
  by_cases h1 : find m d.dataFields = d.dataFields.length
  · simp only [h1, ne_eq, not_true_eq_false, if_false, if_true]
  · have hle : find m d.dataFields ≤ d.dataFields.length := find_le_length _ _
    simp only [h1, ne_eq, not_false_eq_true, if_true, if_false]
    by_cases h0 : find m d.dataFields = 0
    · simp only [h0, if_true]
      rfl
    · have hlt : ¬ ((find m d.dataFields : Int) < 1) := by omega
      have hs : toSizeT ((find m d.dataFields : Int) - 1) = find m d.dataFields - 1 := by
        have := @toSizeT_sub (find m d.dataFields) 1 (by omega)
        simpa using this
      have hb : find m d.dataFields - 1 < d.dataFields.length := by omega
      simp only [hlt, h0, if_false, hs, List.getD_eq_getElem?_getD,
        List.getElem?_eq_getElem hb, Option.getD_some]

theorem getValueFromDataFields_not_found (d : SentenceData) (m : Str) (h : m ∉ d.dataFields) :
    getValueFromDataFields d m = .error (.invalid_argument "Value not found.") := by
  rw [getValueFromDataFields_eq, if_pos ((find_eq_length_iff _ _).2 h)]

theorem getValueFromDataFields_first (d : SentenceData) (m : Str)
    (h : d.dataFields.head? = some m) :
    getValueFromDataFields d m
      = .error (.invalid_argument "Index found at position 0. No corresponding value found") := by
  rw [getValueFromDataFields_eq]
  cases hf : d.dataFields with
  | nil => rw [hf] at h; cases h
  | cons a rest =>
    rw [hf] at h
    simp only [List.head?_cons, Option.some.injEq] at h
    subst h
    have h0 : find a (a :: rest) = 0 := by simp [find]
    rw [h0, if_neg (by simp), if_pos rfl]

theorem getValueFromDataFields_ok (d : SentenceData) (m : Str) (i : Nat)
    (hi : find m d.dataFields = i + 1) (hlt : i + 1 < d.dataFields.length) :
    getValueFromDataFields d m = .ok (d.dataFields.getD i []) := by
  rw [getValueFromDataFields_eq, if_neg (by omega), if_neg (by omega), hi]
  rfl

/-- A value the field extractor returns is one of the data fields, the one
before the first occurrence of the marker. -/
theorem getValueFromDataFields_ok_inv (d : SentenceData) (m v : Str)
    (h : getValueFromDataFields d m = .ok v) :
    ∃ i, find m d.dataFields = i + 1 ∧ d.dataFields[i + 1]? = some m
      ∧ d.dataFields[i]? = some v := by
  rw [getValueFromDataFields_eq] at h
  have hle : find m d.dataFields ≤ d.dataFields.length := find_le_length _ _
  by_cases h1 : find m d.dataFields = d.dataFields.length
  · rw [if_pos h1] at h; cases h
  · rw [if_neg h1] at h
    by_cases h0 : find m d.dataFields = 0
    · rw [if_pos h0] at h; cases h
    · rw [if_neg h0] at h
      have hmem : m ∈ d.dataFields := (find_lt_length_iff _ _).1 (by omega)
      have hget := getElem?_find _ _ hmem
      obtain ⟨i, hi⟩ : ∃ i, find m d.dataFields = i + 1 := ⟨find m d.dataFields - 1, by omega⟩
      refine ⟨i, hi, by rw [← hi]; exact hget, ?_⟩
      have hb : i < d.dataFields.length := by omega
      simp only [hi, Nat.add_sub_cancel, Except.ok.injEq, List.getD_eq_getElem?_getD,
        List.getElem?_eq_getElem hb, Option.getD_some] at h
      rw [List.getElem?_eq_getElem hb, h]

/-- C6: when the first occurrence of the marker `m` among the data fields is at
an index `i` that is at least 1, `getValueFromDataFields` returns the field at
index `i - 1`, whatever follows the index `i`. -/
theorem getValueFromDataFields_spec (d : SentenceData) (m : Str) (i : Nat)
    (hi : 1 ≤ i) (hm : d.dataFields[i]? = some m)
    (hfirst : ∀ j, j < i → d.dataFields[j]? ≠ some m) :
    ∃ v, d.dataFields[i - 1]? = some v ∧ getValueFromDataFields d m = .ok v := by
  have hidx := find_eq_of_first d.dataFields m i hm hfirst
  have hlt : i < d.dataFields.length := by
    by_contra hcon
    rw [List.getElem?_eq_none (by omega)] at hm
    cases hm
  have hb : i - 1 < d.dataFields.length := by omega
  refine ⟨d.dataFields[i - 1], List.getElem?_eq_getElem hb, ?_⟩
  have := getValueFromDataFields_ok d m (i - 1) (by omega) (by omega)
  rw [this, List.getD_eq_getElem?_getD, List.getElem?_eq_getElem hb, Option.getD_some]

/-- C6 on the fields `a, M, b, M`: the value is `a`, the field before the first
`M`. -/
theorem getValueFromDataFields_spec_witness :
    ∃ v, (markerTwice.dataFields)[1 - 1]? = some v
      ∧ getValueFromDataFields markerTwice (lit "M") = .ok v :=
  getValueFromDataFields_spec markerTwice (lit "M") 1 (by decide) (by decide) (by decide)

/-- C7: `getValueFromDataFields` fails exactly when the marker is absent or is
the first field; it throws "Value not found." exactly when the marker is
absent, and the different "Index found at position 0. No corresponding value
found" exactly when the marker is the first field, whatever the later fields
are. -/
theorem getValueFromDataFields_failure (d : SentenceData) (m : Str) :
    ((∃ e, getValueFromDataFields d m = .error e)
      ↔ (m ∉ d.dataFields ∨ d.dataFields.head? = some m)) ∧
    (getValueFromDataFields d m = .error (.invalid_argument "Value not found.")
      ↔ m ∉ d.dataFields) ∧
    (getValueFromDataFields d m
        = .error (.invalid_argument "Index found at position 0. No corresponding value found")
      ↔ d.dataFields.head? = some m) ∧
    Failure.invalid_argument "Value not found."
      ≠ Failure.invalid_argument "Index found at position 0. No corresponding value found" := by
  have hne : Failure.invalid_argument "Value not found."
      ≠ Failure.invalid_argument "Index found at position 0. No corresponding value found" := by
    decide
  have hhead : d.dataFields.head? = some m → m ∈ d.dataFields := by
    intro h
    cases hf : d.dataFields with
    | nil => rw [hf] at h; cases h
    | cons a rest =>
      rw [hf] at h
      simp only [List.head?_cons, Option.some.injEq] at h
      simp [h]
  have hzero : m ∈ d.dataFields → find m d.dataFields = 0 → d.dataFields.head? = some m := by
    intro hmem h0
    have := getElem?_find _ _ hmem
    rw [h0] at this
    rw [List.head?_eq_getElem?]
    exact this
  by_cases hmem : m ∈ d.dataFields
  · by_cases hh : d.dataFields.head? = some m
    · have := getValueFromDataFields_first d m hh
      refine ⟨?_, ?_, ?_, hne⟩
      · exact ⟨fun _ => Or.inr hh, fun _ => ⟨_, this⟩⟩
      · rw [this]
        constructor
        · intro h; injection h with h; exact absurd h.symm hne
        · intro h; exact absurd hmem h
      · exact ⟨fun _ => hh, fun _ => this⟩
    · have h1 : find m d.dataFields ≠ d.dataFields.length := by
        have := (find_lt_length_iff _ _).2 hmem; omega
      have h0 : find m d.dataFields ≠ 0 := fun h0 => hh (hzero hmem h0)
      have := getValueFromDataFields_eq d m
      rw [if_neg h1, if_neg h0] at this
      rw [this]
      refine ⟨?_, ?_, ?_, hne⟩
      · constructor
        · rintro ⟨e, he⟩; cases he
        · rintro (h | h)
          · exact absurd hmem h
          · exact absurd h hh
      · constructor
        · intro h; cases h
        · intro h; exact absurd hmem h
      · constructor
        · intro h; cases h
        · intro h; exact absurd h hh
  · have := getValueFromDataFields_not_found d m hmem
    refine ⟨?_, ?_, ?_, hne⟩
    · exact ⟨fun _ => Or.inl hmem, fun _ => ⟨_, this⟩⟩
    · exact ⟨fun _ => hmem, fun _ => this⟩
    · rw [this]
      constructor
      · intro h; injection h with h; exact absurd h hne
      · intro h; exact absurd (hhead h) hmem

/-! ## The direction resolver and the interpreter -/

theorem directionAndValueFinder_pos (d : SentenceData) (p n : Str) (pc nc : Byte)
    (h : p ∈ d.dataFields) :
    directionAndValueFinder d p n pc nc
      = (getValueFromDataFields d p).map (fun v => { value := v, direction := pc }) := by
  have hne : find p d.dataFields ≠ d.dataFields.length := by
    have := (find_lt_length_iff p d.dataFields).2 h; omega
  unfold directionAndValueFinder
  simp only [hne, ne_eq, not_false_eq_true, decide_True, if_true]
  cases getValueFromDataFields d p <;> rfl

theorem directionAndValueFinder_neg (d : SentenceData) (p n : Str) (pc nc : Byte)
    (h : p ∉ d.dataFields) :
    directionAndValueFinder d p n pc nc
      = (getValueFromDataFields d n).map (fun v => { value := v, direction := nc }) := by
  have he : find p d.dataFields = d.dataFields.length := (find_eq_length_iff p d.dataFields).2 h
  unfold directionAndValueFinder
  simp only [he, ne_eq, not_true_eq_false, decide_False, if_false, Bool.false_eq_true]
  cases getValueFromDataFields d n <;> rfl

/-- The interpreter as its two guards followed by the three lookups and the
call of the constructor. -/
theorem interpretSentenceData_eq {Position : Type}
    (mk : PositionRequest → Except Failure Position) (d : SentenceData) :
    interpretSentenceData mk d =
      if isSupportedSentenceFormat d.format = false then
        .error (.invalid_argument "Invalid data format.")
      else if d.dataFields.length < 4 then
        .error (.invalid_argument "DataFields is not the required minimum size.")
      else
        (if d.format = lit "GGA" then getValueFromDataFields d (lit "M") else .ok (lit "0"))
          >>= fun elevation =>
        directionAndValueFinder d (lit "N") (lit "S") (ofChar 'N') (ofChar 'S')
          >>= fun latitude =>
        directionAndValueFinder d (lit "E") (lit "W") (ofChar 'E') (ofChar 'W')
          >>= fun longitude =>
        mk { latitude := latitude.value, latitudeDirection := latitude.direction,
             longitude := longitude.value, longitudeDirection := longitude.direction,
             elevation := elevation } := by
  unfold interpretSentenceData
  by_cases hs : isSupportedSentenceFormat d.format = false
  · simp [hs, throw, throwThe, MonadExceptOf.throw, bind, Except.bind]
  · have hs2 : isSupportedSentenceFormat d.format = true := by simpa using hs
    by_cases hn : d.dataFields.length < 4
    · have hn2 : (d.dataFields.length : Int) < 4 := by omega
      simp [hs2, hn, hn2, throw, throwThe, MonadExceptOf.throw, bind, Except.bind, pure,
        Except.pure]
    · have hn2 : ¬ (d.dataFields.length : Int) < 4 := by omega
      by_cases hg : d.format = lit "GGA"
      · simp only [hs2, hn, hn2, hg, bind, Except.bind, pure, Except.pure, if_true, if_false,
          Bool.not_true, Bool.false_eq_true, Bool.true_eq_false]
        cases getValueFromDataFields d (lit "M") <;> rfl
      · simp only [hs2, hn, hn2, hg, bind, Except.bind, pure, Except.pure, if_true, if_false,
          Bool.not_true, Bool.false_eq_true, Bool.true_eq_false]

theorem directionAndValueFinder_ok_inv (d : SentenceData) (p n : Str) (pc nc : Byte)
    (r : PositionDataWithDirection) (h : directionAndValueFinder d p n pc nc = .ok r) :
    r.value ∈ d.dataFields ∧ (r.direction = pc ∨ r.direction = nc) := by
  by_cases hp : p ∈ d.dataFields
  · rw [directionAndValueFinder_pos d p n pc nc hp] at h
    cases hv : getValueFromDataFields d p with
    | error e => rw [hv] at h; cases h
    | ok v =>
      rw [hv] at h
      simp only [Except.map, Except.ok.injEq] at h
      obtain ⟨i, -, -, hi⟩ := getValueFromDataFields_ok_inv d p v hv
      subst h
      exact ⟨List.getElem?_mem hi, Or.inl rfl⟩
  · rw [directionAndValueFinder_neg d p n pc nc hp] at h
    cases hv : getValueFromDataFields d n with
    | error e => rw [hv] at h; cases h
    | ok v =>
      rw [hv] at h
      simp only [Except.map, Except.ok.injEq] at h
      obtain ⟨i, -, -, hi⟩ := getValueFromDataFields_ok_inv d n v hv
      subst h
      exact ⟨List.getElem?_mem hi, Or.inr rfl⟩

/-- The interpreter with any constructor is the computation of the request
followed by the constructor. -/
theorem interpretSentenceData_bind {Position : Type}
    (mk : PositionRequest → Except Failure Position) (d : SentenceData) :
    interpretSentenceData mk d = positionRequest d >>= mk := by
  unfold positionRequest
  rw [interpretSentenceData_eq, interpretSentenceData_eq]
  by_cases hs : isSupportedSentenceFormat d.format = false
  · rw [if_pos hs, if_pos hs]; rfl
  · rw [if_neg hs, if_neg hs]
    by_cases hn : d.dataFields.length < 4
    · rw [if_pos hn, if_pos hn]; rfl
    · rw [if_neg hn, if_neg hn]
      cases (if d.format = lit "GGA" then getValueFromDataFields d (lit "M")
        else Except.ok (lit "0")) with
      | error e => rfl
      | ok ele =>
        cases directionAndValueFinder d (lit "N") (lit "S") (ofChar 'N') (ofChar 'S') with
        | error e => rfl
        | ok lat =>
          cases directionAndValueFinder d (lit "E") (lit "W") (ofChar 'E') (ofChar 'W') with
          | error e => rfl
          | ok lon => rfl

/-- C8: when the positive marker is one of the data fields,
`directionAndValueFinder` is the lookup of the positive marker paired with the
positive character, failing as that lookup fails, whether or not the negative
marker is present; otherwise it is the lookup of the negative marker paired with
the negative character.  On the fields `.., 48.1, N, 11.5, E, ..` latitude and
longitude are `(48.1, N)` and `(11.5, E)`; with `S` and `W` in place of `N` and
`E` they are `(48.1, S)` and `(11.5, W)`. -/
theorem directionAndValueFinder_spec (d : SentenceData) (p n : Str) (pc nc : Byte) :
    (p ∈ d.dataFields → directionAndValueFinder d p n pc nc
      = (getValueFromDataFields d p).map (fun v => { value := v, direction := pc })) ∧
    (p ∉ d.dataFields → directionAndValueFinder d p n pc nc
      = (getValueFromDataFields d n).map (fun v => { value := v, direction := nc })) ∧
    directionAndValueFinder northEast (lit "N") (lit "S") (ofChar 'N') (ofChar 'S')
      = .ok { value := lit "48.1", direction := ofChar 'N' } ∧
    directionAndValueFinder northEast (lit "E") (lit "W") (ofChar 'E') (ofChar 'W')
      = .ok { value := lit "11.5", direction := ofChar 'E' } ∧
    directionAndValueFinder southWest (lit "N") (lit "S") (ofChar 'N') (ofChar 'S')
      = .ok { value := lit "48.1", direction := ofChar 'S' } ∧
    directionAndValueFinder southWest (lit "E") (lit "W") (ofChar 'E') (ofChar 'W')
      = .ok { value := lit "11.5", direction := ofChar 'W' } :=
  ⟨directionAndValueFinder_pos d p n pc nc, directionAndValueFinder_neg d p n pc nc,
    by decide, by decide, by decide, by decide⟩

/-- C9: on data with a supported format and at least 4 fields on which the
elevation, latitude and longitude lookups succeed, `interpretSentenceData` is the
call of the position constructor on the five components latitude value,
latitude direction, longitude value, longitude direction and elevation, where
latitude and longitude are the results of `directionAndValueFinder` with the
markers `N`, `S` and `E`, `W`; the value strings are data fields, unchanged. -/
theorem interpretSentenceData_request {Position : Type}
    (mk : PositionRequest → Except Failure Position) (d : SentenceData)
    (lat lon : PositionDataWithDirection) (ele : Str)
    (hs : isSupportedSentenceFormat d.format = true) (hn : 4 ≤ d.dataFields.length)
    (hele : (if d.format = lit "GGA" then getValueFromDataFields d (lit "M")
      else .ok (lit "0")) = .ok ele)
    (hlat : directionAndValueFinder d (lit "N") (lit "S") (ofChar 'N') (ofChar 'S') = .ok lat)
    (hlon : directionAndValueFinder d (lit "E") (lit "W") (ofChar 'E') (ofChar 'W') = .ok lon) :
    interpretSentenceData mk d
      = mk { latitude := lat.value, latitudeDirection := lat.direction,
             longitude := lon.value, longitudeDirection := lon.direction,
             elevation := ele } ∧
    lat.value ∈ d.dataFields ∧ lon.value ∈ d.dataFields ∧
    (d.format = lit "GGA" → ele ∈ d.dataFields) := by
  refine ⟨?_, (directionAndValueFinder_ok_inv _ _ _ _ _ _ hlat).1,
    (directionAndValueFinder_ok_inv _ _ _ _ _ _ hlon).1, ?_⟩
  · rw [interpretSentenceData_eq, if_neg (by simp [hs]), if_neg (by omega), hele, hlat, hlon]
    rfl
  · intro hg
    rw [if_pos hg] at hele
    obtain ⟨i, -, -, hi⟩ := getValueFromDataFields_ok_inv d _ ele hele
    exact List.getElem?_mem hi

/-- C9 on the data of the sample line, with a constructor that records its
arguments. -/
theorem interpretSentenceData_request_witness :
    interpretSentenceData (fun request => Except.ok request) sampleData
      = Except.ok { latitude := lit "4916.45", latitudeDirection := ofChar 'N',
                    longitude := lit "12311.12", longitudeDirection := ofChar 'W',
                    elevation := lit "0" } ∧
    lit "4916.45" ∈ sampleData.dataFields ∧ lit "12311.12" ∈ sampleData.dataFields ∧
    (sampleData.format = lit "GGA" → lit "0" ∈ sampleData.dataFields) :=
  interpretSentenceData_request (fun request => Except.ok request) sampleData
    { value := lit "4916.45", direction := ofChar 'N' }
    { value := lit "12311.12", direction := ofChar 'W' } (lit "0")
    (by decide) (by decide) (by decide) (by decide) (by decide)

/-- The elevation of a request the interpreter has built. -/
theorem positionRequest_elevation (d : SentenceData) (r : PositionRequest)
    (h : positionRequest d = .ok r) :
    (if d.format = lit "GGA" then getValueFromDataFields d (lit "M") else .ok (lit "0"))
      = .ok r.elevation := by
  unfold positionRequest at h
  rw [interpretSentenceData_eq] at h
  by_cases hs : isSupportedSentenceFormat d.format = false
  · rw [if_pos hs] at h; cases h
  · rw [if_neg hs] at h
    by_cases hn : d.dataFields.length < 4
    · rw [if_pos hn] at h; cases h
    · rw [if_neg hn] at h
      cases he : (if d.format = lit "GGA" then getValueFromDataFields d (lit "M")
        else Except.ok (lit "0")) with
      | error e => rw [he] at h; cases h
      | ok ele =>
        rw [he] at h
        cases hlat : directionAndValueFinder d (lit "N") (lit "S") (ofChar 'N') (ofChar 'S') with
        | error e => rw [hlat] at h; cases h
        | ok lat =>
          rw [hlat] at h
          cases hlon : directionAndValueFinder d (lit "E") (lit "W") (ofChar 'E') (ofChar 'W') with
          | error e => rw [hlon] at h; cases h
          | ok lon =>
            rw [hlon] at h
            simp only [bind, Except.bind, Except.ok.injEq] at h
            rw [← h]

/-- C10: the interpreter with any constructor is the computation of the request
followed by the constructor; in a request it has built, the elevation is, for
the format `GGA`, the field before the first field equal to `M`, and for the
formats `GLL` and `RMC` the string `0`, whatever the fields are; for the format
`GGA` with at least 4 fields the interpreter fails with "Value not found." when
no field is `M` and with "Index found at position 0. No corresponding value
found" when the first field is `M`. -/
theorem interpretSentenceData_elevation (d : SentenceData) :
    (∀ (Position : Type) (mk : PositionRequest → Except Failure Position),
      interpretSentenceData mk d = positionRequest d >>= mk) ∧
    (∀ r, positionRequest d = .ok r →
      (d.format = lit "GGA" →
        ∃ i, d.dataFields[i + 1]? = some (lit "M") ∧
          (∀ j, j < i + 1 → d.dataFields[j]? ≠ some (lit "M")) ∧
          d.dataFields[i]? = some r.elevation) ∧
      (d.format = lit "GLL" ∨ d.format = lit "RMC" → r.elevation = lit "0")) ∧
    (∀ (Position : Type) (mk : PositionRequest → Except Failure Position),
      d.format = lit "GGA" → 4 ≤ d.dataFields.length →
      (lit "M" ∉ d.dataFields →
        interpretSentenceData mk d = .error (.invalid_argument "Value not found.")) ∧
      (d.dataFields.head? = some (lit "M") →
        interpretSentenceData mk d = .error
          (.invalid_argument "Index found at position 0. No corresponding value found"))) ∧
    positionRequest ggaData
      = .ok { latitude := lit "4916.45", latitudeDirection := ofChar 'N',
              longitude := lit "12311.12", longitudeDirection := ofChar 'W',
              elevation := lit "545.4" } ∧
    positionRequest gllDataWithM
      = .ok { latitude := lit "4916.45", latitudeDirection := ofChar 'N',
              longitude := lit "12311.12", longitudeDirection := ofChar 'W',
              elevation := lit "0" } := by
  refine ⟨fun _ mk => interpretSentenceData_bind mk d, ?_, ?_, by decide, by decide⟩
  · intro r hr
    have he := positionRequest_elevation d r hr
    constructor
    · intro hg
      rw [if_pos hg] at he
      obtain ⟨i, hfind, hm, hv⟩ := getValueFromDataFields_ok_inv d _ _ he
      exact ⟨i, hm, fun j hj => not_of_lt_find _ _ j (by omega), hv⟩
    · intro hf
      have hg : d.format ≠ lit "GGA" := by
        rcases hf with hf | hf <;> rw [hf] <;> decide
      rw [if_neg hg] at he
      simp only [Except.ok.injEq] at he
      exact he.symm
  · intro Position mk hg hn
    have hsup : ¬ isSupportedSentenceFormat d.format = false := by rw [hg]; decide
    constructor
    · intro hm
      rw [interpretSentenceData_eq, if_neg hsup, if_neg (by omega), if_pos hg,
        getValueFromDataFields_not_found d _ hm]
      rfl
    · intro hm
      rw [interpretSentenceData_eq, if_neg hsup, if_neg (by omega), if_pos hg,
        getValueFromDataFields_first d _ hm]
      rfl

/-! ## The guards of the interpreter, the format registry and the sample line -/

/-- C11: with a format that is not supported `interpretSentenceData` fails with
"Invalid data format." whatever the data fields and the constructor are; with
a supported format and fewer than 4 data fields it fails with "DataFields is
not the required minimum size.", again whatever the fields and the constructor
are, so neither a lookup nor the constructor decides the outcome; the two
failures differ from each other and from the two failures of a marker
lookup. -/
theorem interpretSentenceData_guards {Position : Type}
    (mk : PositionRequest → Except Failure Position) (d : SentenceData) :
    (isSupportedSentenceFormat d.format = false →
      interpretSentenceData mk d = .error (.invalid_argument "Invalid data format.")) ∧
    (isSupportedSentenceFormat d.format = true → d.dataFields.length < 4 →
      interpretSentenceData mk d
        = .error (.invalid_argument "DataFields is not the required minimum size.")) ∧
    Failure.invalid_argument "Invalid data format."
      ≠ Failure.invalid_argument "DataFields is not the required minimum size." ∧
    (∀ e, e = Failure.invalid_argument "Invalid data format."
        ∨ e = Failure.invalid_argument "DataFields is not the required minimum size." →
      e ≠ Failure.invalid_argument "Value not found." ∧
      e ≠ Failure.invalid_argument "Index found at position 0. No corresponding value found") := by
  refine ⟨?_, ?_, by decide, ?_⟩
  · intro hs
    rw [interpretSentenceData_eq, if_pos hs]
  · intro hs hn
    rw [interpretSentenceData_eq, if_neg (by simp [hs]), if_pos hn]
  · rintro e (rfl | rfl) <;> exact ⟨by decide, by decide⟩

/-- C16: `isSupportedSentenceFormat` answers `true` exactly on the three strings
`GLL`, `GGA` and `RMC`; a code in lower case, a longer and a shorter string are
not supported. -/
theorem isSupportedSentenceFormat_iff (code : Str) :
    (isSupportedSentenceFormat code = true
      ↔ (code = lit "GLL" ∨ code = lit "GGA" ∨ code = lit "RMC")) ∧
    isSupportedSentenceFormat (lit "gga") = false ∧
    isSupportedSentenceFormat (lit "GGA ") = false ∧
    isSupportedSentenceFormat (lit "GG") = false ∧
    isSupportedSentenceFormat (lit "") = false := by
  refine ⟨?_, by decide, by decide, by decide, by decide⟩
  unfold isSupportedSentenceFormat
  have hmem := find_eq_length_iff code valid_formats
  simp only [ne_eq, decide_eq_true_eq, hmem, not_not]
  simp only [valid_formats, List.mem_cons, List.mem_singleton, List.not_mem_nil, or_false]

/-- A line that is not well-formed contributes nothing. -/
theorem lineResult_not_wf {Position : Type} (mk : PositionRequest → Except Failure Position)
    (line : Str) (h : isWellFormedSentence line = .ok false) : lineResult mk line = none := by
  have hne : ¬ ((Except.ok false : Except Failure Bool) = Except.ok true) := by decide
  unfold lineResult
  simp only [h, hne, false_and, if_false]

set_option maxRecDepth 8192 in
/-- C12: the sample line is well-formed; the xor of the bytes between its `$`
and its `*` is `0x31` and `hasCorrectChecksum` answers `true`;
`parseSentenceData` gives the format `GLL` and the six fields `4916.45`, `N`,
`12311.12`, `W`, `225444`, `A`; the interpreter hands the constructor the
request `(4916.45, N, 12311.12, W, 0)`; and with a constructor that accepts
this request, `positionsFromLog` on three lines of which the second is the
sample line and the first and third are not well-formed returns one
position. -/
theorem sampleLine_scenario :
    isWellFormedSentence sampleLine = .ok true ∧
    payload sampleLine = lit "GPGLL,4916.45,N,12311.12,W,225444,A" ∧
    xorBytes (lit "GPGLL,4916.45,N,12311.12,W,225444,A") = 0x31 ∧
    hasCorrectChecksum sampleLine = .ok true ∧
    parseSentenceData sampleLine = .ok
      { format := lit "GLL",
        dataFields :=
          [lit "4916.45", lit "N", lit "12311.12", lit "W", lit "225444", lit "A"] } ∧
    (∀ (Position : Type) (mk : PositionRequest → Except Failure Position),
      interpretSentenceData mk sampleData = mk sampleRequest) ∧
    (∀ (Position : Type) (mk : PositionRequest → Except Failure Position) (p : Position)
        (first third : Str),
      mk sampleRequest = .ok p →
      isWellFormedSentence first = .ok false → isWellFormedSentence third = .ok false →
      positionsFromLog mk [first, sampleLine, third] = .ok [p] ∧
      ∃ positions, positionsFromLog mk [first, sampleLine, third] = .ok positions
        ∧ positions.length = 1) := by
  have hreq : positionRequest sampleData = .ok sampleRequest := by decide
  have hint : ∀ (Position : Type) (mk : PositionRequest → Except Failure Position),
      interpretSentenceData mk sampleData = mk sampleRequest := by
    intro Position mk
    rw [interpretSentenceData_bind, hreq]
    rfl
  have hparse : parseSentenceData sampleLine = .ok sampleData := by decide
  refine ⟨by decide, by decide, by decide, by decide, by decide, hint, ?_⟩
  intro Position mk p first third hp h1 h3
  have hres : positionsFromLog mk [first, sampleLine, third] = .ok [p] := by
    unfold positionsFromLog
    rw [positionsFromLogLoop_eq]
    have hs : lineResult mk sampleLine = some p := by
      have hwf : isWellFormedSentence sampleLine = .ok true := by decide
      have hck : hasCorrectChecksum sampleLine = .ok true := by decide
      have hfmt : isSupportedSentenceFormat ((sampleLine.drop 3).take 3) = true := by decide
      unfold lineResult
      simp only [hwf, hck, hfmt, and_self, if_true, hparse, bind, Except.bind, hint, hp]
    simp only [List.filterMap_cons, lineResult_not_wf mk first h1, lineResult_not_wf mk third h3,
      hs, List.filterMap_nil, List.nil_append]
  exact ⟨hres, [p], hres, rfl⟩

/-! ## Lines that differ in their checksum digits -/

theorem isxdigit_ne_delimiters (a : Byte) (ha : isxdigit a = true) :
    a ≠ ofChar '*' ∧ a ≠ ofChar '$' := by
  rw [isxdigit_iff] at ha
  unfold IsHexDigit at ha
  have h1 : (ofChar '*').val = 42 := by decide
  have h2 : (ofChar '$').val = 36 := by decide
  constructor
  · intro e; rw [e, h1] at ha; omega
  · intro e; rw [e, h2] at ha; omega

theorem count_append_digits (body : Str) (a b c : Byte) (ha : a ≠ c) (hb : b ≠ c) :
    (body ++ [a, b]).count c = body.count c := by
  rw [List.count_append]
  have : List.count c [a, b] = 0 := by
    rw [List.count_eq_zero]
    intro hm
    simp only [List.mem_cons, List.mem_singleton, List.not_mem_nil, or_false] at hm
    rcases hm with e | e
    · exact ha e.symm
    · exact hb e.symm
  omega

theorem getElem?_append_digits_fst (body : Str) (a b : Byte) :
    (body ++ [a, b])[body.length]? = some a := by
  rw [List.getElem?_append_right (Nat.le_refl _), Nat.sub_self]
  rfl

theorem getElem?_append_digits_snd (body : Str) (a b : Byte) :
    (body ++ [a, b])[body.length + 1]? = some b := by
  have e : body.length + 1 - body.length = 1 := by omega
  rw [List.getElem?_append_right (Nat.le_succ _), e]
  rfl

/-- Well-formedness does not depend on which hexadecimal digits end the
line. -/
theorem isWellFormedSentence_replace_digits (body : Str) (a b a' b' : Byte)
    (hwf : isWellFormedSentence (body ++ [a, b]) = .ok true)
    (ha' : isxdigit a' = true) (hb' : isxdigit b' = true) :
    isWellFormedSentence (body ++ [a', b']) = .ok true := by
  obtain ⟨hxa, hxb⟩ := isWellFormedSentence_hex _ hwf
  rw [isWellFormedSentence_true_iff] at hwf ⊢
  obtain ⟨hlen, ⟨hc1, hc2⟩, h3, h4, h5, h6⟩ := hwf
  have hl : (body ++ [a, b]).length = body.length + 2 := by simp
  have hl' : (body ++ [a', b']).length = body.length + 2 := by simp
  rw [hl] at hlen h5 hxa hxb
  have hga : (body ++ [a, b]).getD (body.length + 2 - 2) 0 = a := by
    rw [Nat.add_sub_cancel, List.getD_eq_getElem?_getD, getElem?_append_digits_fst]
    rfl
  have hgb : (body ++ [a, b]).getD (body.length + 2 - 1) 0 = b := by
    have e : body.length + 2 - 1 = body.length + 1 := by omega
    rw [e, List.getD_eq_getElem?_getD, getElem?_append_digits_snd]
    rfl
  rw [hga] at hxa
  rw [hgb] at hxb
  obtain ⟨na1, na2⟩ := isxdigit_ne_delimiters a hxa
  obtain ⟨nb1, nb2⟩ := isxdigit_ne_delimiters b hxb
  obtain ⟨na1', na2'⟩ := isxdigit_ne_delimiters a' ha'
  obtain ⟨nb1', nb2'⟩ := isxdigit_ne_delimiters b' hb'
  rw [count_append_digits body a b _ na1 nb1] at hc1
  rw [count_append_digits body a b _ na2 nb2] at hc2
  refine ⟨by rw [hl']; exact hlen, ⟨?_, ?_⟩, ?_, ?_, ?_, ?_⟩
  · rw [count_append_digits body a' b' _ na1' nb1']; exact hc1
  · rw [count_append_digits body a' b' _ na2' nb2']; exact hc2
  · rw [List.take_append_of_le_length (by omega)] at h3 ⊢
    exact h3
  · intro i hi1 hi2
    obtain ⟨x, hx, hxl⟩ := h4 i hi1 hi2
    have hib : i < body.length := by omega
    rw [List.getElem?_append_left hib] at hx ⊢
    exact ⟨x, hx, hxl⟩
  · rw [hl']
    have hib : body.length + 2 - 3 < body.length := by omega
    rw [List.getElem?_append_left hib] at h5 ⊢
    exact h5
  · intro i hi1 hi2
    rw [hl'] at hi1 hi2
    by_cases hi : i = body.length
    · subst hi
      exact ⟨a', getElem?_append_digits_fst _ _ _, (isxdigit_iff a').1 ha'⟩
    · have hi' : i = body.length + 1 := by omega
      subst hi'
      exact ⟨b', getElem?_append_digits_snd _ _ _, (isxdigit_iff b').1 hb'⟩

theorem payload_append_digits (body : Str) (a b : Byte) :
    payload (body ++ [a, b]) = (body.drop 1).take (body.length - 2) := by
  unfold payload
  cases body with
  | nil => simp
  | cons x xs =>
    simp only [List.cons_append, List.drop_succ_cons, List.drop_zero, List.length_cons,
      List.length_append, List.length_nil]
    rw [List.take_append_of_le_length (by omega)]
    congr 1

theorem checksumValue_append_digits (body : Str) (a b : Byte) :
    checksumValue (body ++ [a, b]) = 16 * hexDigitValue a + hexDigitValue b := by
  unfold checksumValue
  have e1 : (body ++ [a, b]).length - 2 = body.length := by simp
  have e2 : (body ++ [a, b]).length - 1 = body.length + 1 := by simp
  rw [e1, e2, List.getD_eq_getElem?_getD, List.getD_eq_getElem?_getD,
    getElem?_append_digits_fst, getElem?_append_digits_snd]
  rfl

/-- A line on which `lineResult` is nothing can be removed from the stream. -/
theorem positionsFromLog_skip {Position : Type} (mk : PositionRequest → Except Failure Position)
    (line : Str) (h : lineResult mk line = none) (pre post : List Str) :
    positionsFromLog mk (pre ++ [line] ++ post) = positionsFromLog mk (pre ++ post) := by
  unfold positionsFromLog
  rw [positionsFromLogLoop_eq, positionsFromLogLoop_eq]
  simp only [List.filterMap_append, List.filterMap_cons, h, List.filterMap_nil, List.append_nil]

theorem lineResult_wrong_checksum {Position : Type}
    (mk : PositionRequest → Except Failure Position)
    (line : Str) (h : hasCorrectChecksum line = .ok false) : lineResult mk line = none := by
  have hne : ¬ ((Except.ok false : Except Failure Bool) = Except.ok true) := by decide
  unfold lineResult
  simp only [h, hne, false_and, and_false, if_false]

theorem hexDigitValue_eq (c : Byte) :
    hexDigitValue c = if 48 ≤ c.val ∧ c.val ≤ 57 then c.val - 48
      else if 65 ≤ c.val ∧ c.val ≤ 70 then c.val - 55 else c.val - 87 := by
  have h0 : (ofChar '0').val = 48 := by decide
  have h9 : (ofChar '9').val = 57 := by decide
  have hA : (ofChar 'A').val = 65 := by decide
  have hF : (ofChar 'F').val = 70 := by decide
  unfold hexDigitValue
  simp only [Fin.le_def, h0, h9, hA, hF, Bool.and_eq_true, decide_eq_true_eq]

/-- The other case of a hexadecimal digit is a hexadecimal digit of the same
value. -/
theorem hexDigit_sameUpToCase (a a' : Byte) (ha : isxdigit a = true) (h : SameUpToCase a a') :
    isxdigit a' = true ∧ hexDigitValue a' = hexDigitValue a := by
  rcases h with h | ⟨hl, hl', hd⟩
  · subst h; exact ⟨ha, rfl⟩
  · rw [isxdigit_iff] at ha ⊢
    rw [hexDigitValue_eq, hexDigitValue_eq]
    unfold IsHexDigit at ha ⊢
    unfold IsAsciiLetter at hl hl'
    constructor
    · omega
    · split <;> split <;> (try split) <;> (try split) <;> omega

/-- C13: when a well-formed line with a correct checksum has its two trailing
characters replaced by hexadecimal digits of a different base 16 value, the
new line is well-formed, `hasCorrectChecksum` answers `false` on it, and it
can be removed from any stream without changing the result of
`positionsFromLog`. -/
theorem corrupted_checksum_excluded {Position : Type}
    (mk : PositionRequest → Except Failure Position) (body : Str) (a b a' b' : Byte)
    (hwf : isWellFormedSentence (body ++ [a, b]) = .ok true)
    (hck : hasCorrectChecksum (body ++ [a, b]) = .ok true)
    (ha' : IsHexDigit a') (hb' : IsHexDigit b')
    (hne : 16 * hexDigitValue a' + hexDigitValue b' ≠ 16 * hexDigitValue a + hexDigitValue b) :
    isWellFormedSentence (body ++ [a', b']) = .ok true ∧
    hasCorrectChecksum (body ++ [a', b']) = .ok false ∧
    ∀ pre post : List Str,
      positionsFromLog mk (pre ++ [body ++ [a', b']] ++ post) = positionsFromLog mk (pre ++ post) := by
  have hwf' := isWellFormedSentence_replace_digits body a b a' b' hwf
    ((isxdigit_iff a').2 ha') ((isxdigit_iff b').2 hb')
  have hfalse : hasCorrectChecksum (body ++ [a', b']) = .ok false := by
    rw [hasCorrectChecksum_eq _ hwf', payload_append_digits, checksumValue_append_digits]
    rw [hasCorrectChecksum_eq _ hwf, payload_append_digits, checksumValue_append_digits] at hck
    simp only [Except.ok.injEq, decide_eq_true_eq, decide_eq_false_iff_not] at hck ⊢
    intro h
    rw [← hck] at h
    exact hne (by exact_mod_cast h)
  exact ⟨hwf', hfalse, positionsFromLog_skip mk _ (lineResult_wrong_checksum mk _ hfalse)⟩

set_option maxRecDepth 8192 in
/-- C13 on the sample line with its checksum digits `31` replaced by `32`. -/
theorem corrupted_checksum_excluded_witness :
    isWellFormedSentence (sampleBody ++ [ofChar '3', ofChar '2']) = .ok true ∧
    hasCorrectChecksum (sampleBody ++ [ofChar '3', ofChar '2']) = .ok false ∧
    ∀ pre post : List Str,
      positionsFromLog (fun request => Except.ok request)
          (pre ++ [sampleBody ++ [ofChar '3', ofChar '2']] ++ post)
        = positionsFromLog (fun request => Except.ok request) (pre ++ post) :=
  corrupted_checksum_excluded (fun request => Except.ok request) sampleBody
    (ofChar '3') (ofChar '1') (ofChar '3') (ofChar '2')
    (by decide) (by decide) (by unfold IsHexDigit; decide) (by unfold IsHexDigit; decide)
    (by decide)

/-- C18: when the two trailing characters of a well-formed line are replaced by
their other letter case (a digit staying as it is), the new line is well-formed
and `hasCorrectChecksum` returns on it what it returns on the line. -/
theorem checksum_case_insensitive (body : Str) (a b a' b' : Byte)
    (hwf : isWellFormedSentence (body ++ [a, b]) = .ok true)
    (ha : SameUpToCase a a') (hb : SameUpToCase b b') :
    isWellFormedSentence (body ++ [a', b']) = .ok true ∧
    hasCorrectChecksum (body ++ [a', b']) = hasCorrectChecksum (body ++ [a, b]) := by
  obtain ⟨hxa, hxb⟩ := isWellFormedSentence_hex _ hwf
  have e1 : (body ++ [a, b]).length - 2 = body.length := by simp
  have e2 : (body ++ [a, b]).length - 1 = body.length + 1 := by simp
  rw [e1, List.getD_eq_getElem?_getD, getElem?_append_digits_fst] at hxa
  rw [e2, List.getD_eq_getElem?_getD, getElem?_append_digits_snd] at hxb
  simp only [Option.getD_some] at hxa hxb
  obtain ⟨hxa', hva⟩ := hexDigit_sameUpToCase a a' hxa ha
  obtain ⟨hxb', hvb⟩ := hexDigit_sameUpToCase b b' hxb hb
  have hwf' := isWellFormedSentence_replace_digits body a b a' b' hwf hxa' hxb'
  refine ⟨hwf', ?_⟩
  rw [hasCorrectChecksum_eq _ hwf', hasCorrectChecksum_eq _ hwf, payload_append_digits,
    payload_append_digits, checksumValue_append_digits, checksumValue_append_digits, hva, hvb]

/-- C18 on the line `$GPGLL,*7C`, whose checksum is correct, and its form
`$GPGLL,*7c`. -/
theorem checksum_case_insensitive_witness :
    isWellFormedSentence (lit "$GPGLL,*" ++ [ofChar '7', ofChar 'c']) = .ok true ∧
    hasCorrectChecksum (lit "$GPGLL,*" ++ [ofChar '7', ofChar 'c'])
      = hasCorrectChecksum (lit "$GPGLL,*" ++ [ofChar '7', ofChar 'C']) :=
  checksum_case_insensitive (lit "$GPGLL,*") (ofChar '7') (ofChar 'C') (ofChar '7') (ofChar 'c')
    (by decide) (Or.inl rfl)
    (Or.inr ⟨by unfold IsAsciiLetter; decide, by unfold IsAsciiLetter; decide,
      Or.inl (by decide)⟩)

/-! ## Lines the log processor skips -/

/-- The loop of `positionsFromLog` is the loop with the interpreter as a
parameter, taken at `interpretSentenceData`. -/
theorem positionsFromLogLoop_eq_with {Position : Type}
    (mk : PositionRequest → Except Failure Position) (log : List Str) (acc : List Position) :
    positionsFromLogLoop mk log acc
      = positionsFromLogLoopWith (interpretSentenceData mk) log acc := by
  induction log generalizing acc with
  | nil => rfl
  | cons line rest ih =>
    rw [positionsFromLogLoop, positionsFromLogLoopWith]
    simp only [ih]

/-- A well-formed line with an unsupported format code is skipped by the loop
whatever the interpreter would return on it. -/
theorem positionsFromLogLoopWith_unsupported {Position : Type}
    (interpret : SentenceData → Except Failure Position) (line : Str)
    (hwf : isWellFormedSentence line = .ok true)
    (hfmt : isSupportedSentenceFormat ((line.drop 3).take 3) = false)
    (rest : List Str) (acc : List Position) :
    positionsFromLogLoopWith interpret (line :: rest) acc
      = positionsFromLogLoopWith interpret rest acc := by
  obtain ⟨d, hd, hf⟩ := parseSentenceData_ok line hwf
  rw [positionsFromLogLoopWith]
  simp only [hwf, hd, hasCorrectChecksum_eq line hwf, bind, Except.bind, if_true, hf, hfmt,
    Bool.and_false, Bool.false_eq_true, if_false]

theorem lineResult_unsupported {Position : Type}
    (mk : PositionRequest → Except Failure Position) (line : Str)
    (hfmt : isSupportedSentenceFormat ((line.drop 3).take 3) = false) :
    lineResult mk line = none := by
  unfold lineResult
  simp only [hfmt, Bool.false_eq_true, and_false, if_false]

/-- C14: a line that is well-formed and has a correct checksum but whose
format code, its bytes 3 to 5, is not supported can be removed from any stream
without changing the result of `positionsFromLog`, and the loop skips it
whatever the interpreter would return on it, the loop of `positionsFromLog`
being that loop at `interpretSentenceData`; the codes `XXX` and `gga` are not
supported. -/
theorem unsupported_format_skipped {Position : Type}
    (mk : PositionRequest → Except Failure Position) (line : Str)
    (hwf : isWellFormedSentence line = .ok true)
    (_hck : hasCorrectChecksum line = .ok true)
    (hfmt : isSupportedSentenceFormat ((line.drop 3).take 3) = false) :
    (∀ pre post : List Str,
      positionsFromLog mk (pre ++ [line] ++ post) = positionsFromLog mk (pre ++ post)) ∧
    (∀ (interpret : SentenceData → Except Failure Position) rest acc,
      positionsFromLogLoopWith interpret (line :: rest) acc
        = positionsFromLogLoopWith interpret rest acc) ∧
    (∀ log acc, positionsFromLogLoop mk log acc
      = positionsFromLogLoopWith (interpretSentenceData mk) log acc) ∧
    isSupportedSentenceFormat (lit "XXX") = false ∧
    isSupportedSentenceFormat (lit "gga") = false :=
  ⟨positionsFromLog_skip mk line (lineResult_unsupported mk line hfmt),
    fun interpret rest acc => positionsFromLogLoopWith_unsupported interpret line hwf hfmt rest acc,
    positionsFromLogLoop_eq_with mk, by decide, by decide⟩

set_option maxRecDepth 8192 in
/-- C14 on the line `$GPXXX,4916.45,N,12311.12,W,225444,A*2E`. -/
theorem unsupported_format_skipped_witness :
    (∀ pre post : List Str,
      positionsFromLog (fun request => Except.ok request) (pre ++ [unsupportedLine] ++ post)
        = positionsFromLog (fun request => Except.ok request) (pre ++ post)) ∧
    (∀ (interpret : SentenceData → Except Failure PositionRequest) rest acc,
      positionsFromLogLoopWith interpret (unsupportedLine :: rest) acc
        = positionsFromLogLoopWith interpret rest acc) ∧
    (∀ log acc, positionsFromLogLoop (fun request => Except.ok request) log acc
      = positionsFromLogLoopWith
          (interpretSentenceData (fun request => Except.ok request)) log acc) ∧
    isSupportedSentenceFormat (lit "XXX") = false ∧
    isSupportedSentenceFormat (lit "gga") = false :=
  unsupported_format_skipped (fun request => Except.ok request) unsupportedLine
    (by decide) (by decide) (by decide)

/-- C15: on a stream in which no line is well-formed `positionsFromLog` returns
the empty sequence, and so it does on the empty stream. -/
theorem positionsFromLog_no_wellFormed {Position : Type}
    (mk : PositionRequest → Except Failure Position) (log : List Str)
    (h : ∀ line, line ∈ log → isWellFormedSentence line = .ok false) :
    positionsFromLog mk log = .ok [] ∧ positionsFromLog mk [] = .ok [] := by
  refine ⟨?_, rfl⟩
  unfold positionsFromLog
  rw [positionsFromLogLoop_eq, List.nil_append]
  congr 1
  rw [List.filterMap_eq_nil_iff]
  intro line hl
  exact lineResult_not_wf mk line (h line hl)

/-- C15 on a stream of an empty line, a short line and a line without the
prefix `$GP`. -/
theorem positionsFromLog_no_wellFormed_witness :
    positionsFromLog (fun request => Except.ok request)
        [lit "", lit "$GPGLL", lit "GPGLL,4916.45,N,12311.12,W,225444,A*31"] = .ok [] ∧
    positionsFromLog (fun request => Except.ok request) [] = .ok [] :=
  positionsFromLog_no_wellFormed (fun request => Except.ok request)
    [lit "", lit "$GPGLL", lit "GPGLL,4916.45,N,12311.12,W,225444,A*31"] (by decide)

/-! ## The delimiters of a well-formed line -/

/-- A byte that occurs at most once occurs at one index only. -/
theorem index_unique_of_count_le_one (c : Byte) (s : Str) (i j : Nat)
    (hc : s.count c ≤ 1) (hi : s[i]? = some c) (hj : s[j]? = some c) : i = j := by
  induction s generalizing i j with
  | nil => simp at hi
  | cons x xs ih =>
    cases i with
    | zero =>
      cases j with
      | zero => rfl
      | succ j' =>
        exfalso
        simp only [List.getElem?_cons_zero, Option.some.injEq] at hi
        simp only [List.getElem?_cons_succ] at hj
        have hm : c ∈ xs := List.getElem?_mem hj
        have hp : 0 < xs.count c := List.count_pos_iff.2 hm
        rw [hi, List.count_cons_self] at hc
        omega
    | succ i' =>
      cases j with
      | zero =>
        exfalso
        simp only [List.getElem?_cons_zero, Option.some.injEq] at hj
        simp only [List.getElem?_cons_succ] at hi
        have hm : c ∈ xs := List.getElem?_mem hi
        have hp : 0 < xs.count c := List.count_pos_iff.2 hm
        rw [hj, List.count_cons_self] at hc
        omega
      | succ j' =>
        simp only [List.getElem?_cons_succ] at hi hj
        have hle : xs.count c ≤ (x :: xs).count c := by
          rw [List.count_cons]; omega
        rw [ih i' j' (by omega) hi hj]

theorem count_eq_one_of_getElem? (c : Byte) (s : Str) (i : Nat)
    (hc : s.count c ≤ 1) (hi : s[i]? = some c) : s.count c = 1 := by
  have hp : 0 < s.count c := List.count_pos_iff.2 (List.getElem?_mem hi)
  omega

/-- C20: a line `isWellFormedSentence` accepts has exactly one `$`, at index 0,
and exactly one `*`, at index `length - 3`; the bytes at the indices 1 to
`length - 4` contain neither; and a line without a `$` or without a `*` is not
accepted. -/
theorem wellFormed_delimiters (s : Str) :
    (isWellFormedSentence s = .ok true →
      s.count (ofChar '$') = 1 ∧ s[0]? = some (ofChar '$') ∧
      (∀ i, s[i]? = some (ofChar '$') → i = 0) ∧
      s.count (ofChar '*') = 1 ∧ s[s.length - 3]? = some (ofChar '*') ∧
      (∀ i, s[i]? = some (ofChar '*') → i = s.length - 3) ∧
      (∀ i, 1 ≤ i → i ≤ s.length - 4 →
        s[i]? ≠ some (ofChar '$') ∧ s[i]? ≠ some (ofChar '*')) ∧
      ofChar '$' ∉ payload s ∧ ofChar '*' ∉ payload s) ∧
    (s.count (ofChar '$') = 0 ∨ s.count (ofChar '*') = 0 →
      isWellFormedSentence s = .ok false) := by
  have key : isWellFormedSentence s = .ok true →
      10 ≤ s.length ∧ s.count (ofChar '$') ≤ 1 ∧ s.count (ofChar '*') ≤ 1 ∧
      s[0]? = some (ofChar '$') ∧ s[s.length - 3]? = some (ofChar '*') := by
    intro hwf
    rw [isWellFormedSentence_true_iff] at hwf
    obtain ⟨hlen, ⟨hc1, hc2⟩, h3, -, h5, -⟩ := hwf
    refine ⟨hlen, hc2, hc1, ?_, h5⟩
    have h0 : (s.take 3)[0]? = some (ofChar '$') := by rw [h3]; decide
    rw [List.getElem?_take_of_lt (by omega)] at h0
    exact h0
  constructor
  · intro hwf
    obtain ⟨hlen, hd, ha, h0, h5⟩ := key hwf
    have ud : ∀ i, s[i]? = some (ofChar '$') → i = 0 :=
      fun i hi => index_unique_of_count_le_one _ s i 0 hd hi h0
    have ua : ∀ i, s[i]? = some (ofChar '*') → i = s.length - 3 :=
      fun i hi => index_unique_of_count_le_one _ s i _ ha hi h5
    have hin : ∀ i, 1 ≤ i → i ≤ s.length - 4 →
        s[i]? ≠ some (ofChar '$') ∧ s[i]? ≠ some (ofChar '*') := by
      intro i h1 h2
      constructor
      · intro e; have := ud i e; omega
      · intro e; have := ua i e; omega
    have hpay : ∀ c, c ∈ payload s → ∃ i, 1 ≤ i ∧ i ≤ s.length - 4 ∧ s[i]? = some c := by
      intro c hc
      unfold payload at hc
      rw [List.mem_iff_getElem?] at hc
      obtain ⟨k, hk⟩ := hc
      have hkl : k < s.length - 4 := by
        by_contra hcon
        rw [List.getElem?_take_eq_none (by omega)] at hk
        cases hk
      rw [List.getElem?_take_of_lt hkl, List.getElem?_drop] at hk
      exact ⟨1 + k, by omega, by omega, hk⟩
    refine ⟨count_eq_one_of_getElem? _ s 0 hd h0, h0, ud,
      count_eq_one_of_getElem? _ s _ ha h5, h5, ua, hin, ?_, ?_⟩
    · intro hm
      obtain ⟨i, h1, h2, hi⟩ := hpay _ hm
      exact (hin i h1 h2).1 hi
    · intro hm
      obtain ⟨i, h1, h2, hi⟩ := hpay _ hm
      exact (hin i h1 h2).2 hi
  · intro hz
    rcases isWellFormedSentence_total s with hwf | hwf
    · exfalso
      obtain ⟨hlen, hd, ha, h0, h5⟩ := key hwf
      have e1 := count_eq_one_of_getElem? _ s 0 hd h0
      have e2 := count_eq_one_of_getElem? _ s _ ha h5
      omega
    · exact hwf

/-! ## Lines without data fields -/

/-- C17, at the failing input: the line `$GPGLLabc*00` is well-formed and has no
comma, and `parseSentenceData` returns for it the single data field
`$GPGLLabc`, the whole line before the `*`, which is neither no field nor one
empty field; so it is on every well-formed line without a comma.  On the line
`$GPGLL,*00`, whose comma is followed by the `*`, the data fields are one
empty string. -/
theorem parseSentenceData_noCommaLine :
    isWellFormedSentence noCommaLine = .ok true ∧
    ofChar ',' ∉ noCommaLine ∧
    parseSentenceData noCommaLine
      = .ok { format := lit "GLL", dataFields := [lit "$GPGLLabc"] } ∧
    [lit "$GPGLLabc"] ≠ ([] : List Str) ∧ [lit "$GPGLLabc"] ≠ [([] : Str)] ∧
    (∀ s : Str, isWellFormedSentence s = .ok true → ofChar ',' ∉ s →
      parseSentenceData s
        = .ok { format := (s.drop 3).take 3, dataFields := [s.take (s.length - 3)] }) ∧
    parseSentenceData emptyFieldLine = .ok { format := lit "GLL", dataFields := [[]] } :=
  ⟨by decide, by decide, by decide, by decide, by decide,
    fun s hwf hc => parseSentenceData_no_comma s hwf hc, by decide⟩


/-! ## The number and the content of the data fields -/

theorem splitOnP_length {α : Type} (p : α → Bool) (l : List α) :
    (l.splitOnP p).length = l.countP p + 1 := by
  induction l with
  | nil => simp
  | cons x xs ih =>
    rw [List.splitOnP_cons]
    by_cases hx : p x = true
    · simp [hx, ih]
    · simp only [hx, if_false, Bool.false_eq_true]
      have hne := List.splitOnP_ne_nil p xs
      cases hs : List.splitOnP p xs with
      | nil => exact absurd hs hne
      | cons f fs =>
        rw [hs] at ih
        simp only [List.modifyHead_cons, List.length_cons] at ih ⊢
        rw [List.countP_cons_of_neg _ _ hx]
        exact ih

theorem splitOnP_no_sep {α : Type} (p : α → Bool) (l : List α) :
    ∀ f, f ∈ l.splitOnP p → ∀ x, x ∈ f → p x = false := by
  induction l with
  | nil => simp
  | cons a as ih =>
    rw [List.splitOnP_cons]
    by_cases ha : p a = true
    · simp only [ha, if_true, List.mem_cons]
      rintro f (rfl | hf) x hx
      · cases hx
      · exact ih f hf x hx
    · simp only [ha, if_false, Bool.false_eq_true]
      have hne := List.splitOnP_ne_nil p as
      cases hs : List.splitOnP p as with
      | nil => exact absurd hs hne
      | cons g gs =>
        rw [hs] at ih
        simp only [List.modifyHead_cons, List.mem_cons]
        rintro f (rfl | hf) x hx
        · rcases List.mem_cons.1 hx with rfl | hx'
          · simpa using ha
          · exact ih g (List.mem_cons_self _ _) x hx'
        · exact ih f (List.mem_cons_of_mem _ hf) x hx

theorem splitOn_length (c : Byte) (l : Str) : (l.splitOn c).length = l.count c + 1 := by
  unfold List.splitOn List.count
  exact splitOnP_length _ l

theorem splitOn_no_sep (c : Byte) (l : Str) : ∀ f, f ∈ l.splitOn c → c ∉ f := by
  intro f hf hc
  have := splitOnP_no_sep (fun x => x == c) l f hf c hc
  simp at this

theorem drop_eq_drop_take_append {α : Type} (l : List α) (m n : Nat) (h : m ≤ n)
    (hn : n ≤ l.length) : l.drop m = (l.take n).drop m ++ l.drop n := by
  have e : List.drop m (l.take n ++ l.drop n) = (l.take n).drop m ++ l.drop n :=
    List.drop_append_of_le_length (by rw [List.length_take]; omega)
  rw [List.take_append_drop] at e
  exact e

/-- The commas of a well-formed line are its first comma and those of the
characters between that comma and the `*`. -/
theorem count_comma_fields (s : Str) (hwf : isWellFormedSentence s = .ok true)
    (hc : ofChar ',' ∈ s) :
    s.count (ofChar ',')
      = ((s.take (s.length - 3)).drop (find (ofChar ',') s + 1)).count (ofChar ',') + 1 := by
  have hb := first_comma_bound s hwf hc
  have hlt : find (ofChar ',') s < s.length := (find_lt_length_iff _ _).2 hc
  have hget : s[find (ofChar ',') s]? = some (ofChar ',') := getElem?_find _ _ hc
  have hspec := (isWellFormedSentence_true_iff s).1 hwf
  obtain ⟨hlen, -, -, -, h5, h6⟩ := hspec
  -- no comma before the first one
  have hpre : (s.take (find (ofChar ',') s)).count (ofChar ',') = 0 := by
    rw [List.count_eq_zero]
    intro hm
    rw [List.mem_iff_getElem?] at hm
    obtain ⟨j, hj⟩ := hm
    have hjl : j < find (ofChar ',') s := by
      by_contra hcon
      rw [List.getElem?_take_eq_none (by omega)] at hj
      cases hj
    rw [List.getElem?_take_of_lt hjl] at hj
    exact not_of_lt_find _ _ j hjl hj
  -- no comma among the last three characters
  have hpost : (s.drop (s.length - 3)).count (ofChar ',') = 0 := by
    rw [List.count_eq_zero]
    intro hm
    rw [List.mem_iff_getElem?] at hm
    obtain ⟨j, hj⟩ := hm
    rw [List.getElem?_drop] at hj
    have hjl : s.length - 3 + j < s.length := by
      by_contra hcon
      rw [List.getElem?_eq_none (by omega)] at hj
      cases hj
    by_cases hj0 : j = 0
    · subst hj0
      rw [Nat.add_zero, h5] at hj
      have : ofChar '*' = ofChar ',' := by simpa using hj
      exact absurd this (by decide)
    · obtain ⟨b, hb1, hb2⟩ := h6 (s.length - 3 + j) (by omega) hjl
      rw [hj] at hb1
      cases hb1
      have hcv : (ofChar ',').val = 44 := by decide
      unfold IsHexDigit at hb2
      omega
  have e1 : s = s.take (find (ofChar ',') s) ++ s.drop (find (ofChar ',') s) :=
    (List.take_append_drop _ _).symm
  have e2 : s.drop (find (ofChar ',') s)
      = ofChar ',' :: s.drop (find (ofChar ',') s + 1) := by
    rw [List.drop_eq_getElem_cons hlt]
    congr 1
    rw [List.getElem?_eq_getElem hlt] at hget
    exact Option.some.inj hget
  have e3 : s.drop (find (ofChar ',') s + 1)
      = (s.take (s.length - 3)).drop (find (ofChar ',') s + 1) ++ s.drop (s.length - 3) :=
    drop_eq_drop_take_append s _ _ (by omega) (by omega)
  conv_lhs => rw [e1, e2, e3]
  rw [List.count_append, List.count_cons_self, List.count_append, hpre, hpost]
  omega

/-- C21: on a well-formed line `parseSentenceData` returns at least one data
field; when the line has `k` commas, with `k` at least 1, there are exactly `k`
data fields, none of them contains a comma, and joined with commas they are the
characters of the line from one after its first comma up to, not including,
the `*`. -/
theorem parseSentenceData_fields (s : Str) (hwf : isWellFormedSentence s = .ok true) :
    ∃ d, parseSentenceData s = .ok d ∧ d.dataFields ≠ [] ∧
      (1 ≤ s.count (ofChar ',') →
        d.dataFields.length = s.count (ofChar ',') ∧
        (∀ f, f ∈ d.dataFields → ofChar ',' ∉ f) ∧
        ∀ c, s[c]? = some (ofChar ',') → (∀ j, j < c → s[j]? ≠ some (ofChar ',')) →
          [ofChar ','].intercalate d.dataFields = (s.take (s.length - 3)).drop (c + 1)) := by
  by_cases hc : ofChar ',' ∈ s
  · refine ⟨_, parseSentenceData_comma s hwf hc, ?_, ?_⟩
    · exact List.splitOnP_ne_nil _ _
    · intro _
      refine ⟨?_, ?_, ?_⟩
      · show (List.splitOn _ _).length = _
        rw [splitOn_length, count_comma_fields s hwf hc]
      · exact splitOn_no_sep _ _
      · intro c hcc hfirst
        rw [← find_eq_of_first s _ c hcc hfirst]
        exact List.intercalate_splitOn _ (ofChar ',')
  · refine ⟨_, parseSentenceData_no_comma s hwf hc, by simp, ?_⟩
    intro hk
    exact absurd (List.count_pos_iff.1 (by omega)) hc

set_option maxRecDepth 8192 in
/-- C21 on the sample line, which has six commas. -/
theorem parseSentenceData_fields_witness :
    ∃ d, parseSentenceData sampleLine = .ok d ∧ d.dataFields ≠ [] ∧
      (1 ≤ sampleLine.count (ofChar ',') →
        d.dataFields.length = sampleLine.count (ofChar ',') ∧
        (∀ f, f ∈ d.dataFields → ofChar ',' ∉ f) ∧
        ∀ c, sampleLine[c]? = some (ofChar ',') →
          (∀ j, j < c → sampleLine[j]? ≠ some (ofChar ',')) →
          [ofChar ','].intercalate d.dataFields
            = (sampleLine.take (sampleLine.length - 3)).drop (c + 1)) :=
  parseSentenceData_fields sampleLine (by decide)

/-! ## Encoding and verifying a checksum -/

theorem hexDigit_spec (upper : Bool) (n : Nat) (hn : n < 16) :
    isxdigit (hexDigit upper n) = true ∧ hexDigitValue (hexDigit upper n) = n := by
  revert n upper
  decide

theorem foldl_xor_lt (l : Str) (a k : Nat) (ha : a < 2 ^ k)
    (hl : ∀ b, b ∈ l → b.val < 2 ^ k) :
    l.foldl (fun acc b => acc ^^^ b.val) a < 2 ^ k := by
  induction l generalizing a with
  | nil => exact ha
  | cons x xs ih =>
    simp only [List.foldl_cons]
    exact ih _ (Nat.xor_lt_two_pow ha (hl x (List.mem_cons_self _ _)))
      (fun b hb => hl b (List.mem_cons_of_mem _ hb))

/-- The xor of 7-bit bytes is a 7-bit value. -/
theorem xorBytes_lt_128 (l : Str) (hl : ∀ b, b ∈ l → b.val < 128) : xorBytes l < 128 :=
  foldl_xor_lt l 0 7 (by decide) hl

theorem frame_eq_append (p : Str) (h l : Byte) :
    frame p h l = (ofChar '$' :: p ++ [ofChar '*']) ++ [h, l] := by
  simp [frame]

theorem payload_frame (p : Str) (h l : Byte) : payload (frame p h l) = p := by
  rw [frame_eq_append, payload_append_digits]
  simp

theorem checksumValue_frame (p : Str) (h l : Byte) :
    checksumValue (frame p h l) = 16 * hexDigitValue h + hexDigitValue l := by
  rw [frame_eq_append, checksumValue_append_digits]

/-- A frame around a payload that starts with `GP` and three letters, has at
least six bytes and holds no `$` and no `*` is well-formed when its last two
characters are hexadecimal digits. -/
theorem isWellFormedSentence_frame (p : Str) (h l : Byte)
    (hGP : p.take 2 = lit "GP")
    (hletters : ∀ i, 2 ≤ i → i ≤ 4 → ∃ b, p[i]? = some b ∧ IsAsciiLetter b)
    (hlen : 6 ≤ p.length)
    (hdollar : ofChar '$' ∉ p) (hstar : ofChar '*' ∉ p)
    (hh : isxdigit h = true) (hl : isxdigit l = true) :
    isWellFormedSentence (frame p h l) = .ok true := by
  obtain ⟨nh1, nh2⟩ := isxdigit_ne_delimiters h hh
  obtain ⟨nl1, nl2⟩ := isxdigit_ne_delimiters l hl
  rw [isWellFormedSentence_true_iff]
  have hfl : (frame p h l).length = p.length + 4 := by simp [frame]
  have hidx : ∀ i, (frame p h l)[i + 1]? = (p ++ [ofChar '*', h, l])[i]? := by
    intro i; simp [frame]
  refine ⟨by omega, ⟨?_, ?_⟩, ?_, ?_, ?_, ?_⟩
  · have e : (frame p h l).count (ofChar '*') = p.count (ofChar '*') + 1 := by
      rw [frame_eq_append, count_append_digits _ h l _ nh1 nl1]
      rw [List.cons_append, List.count_cons_of_ne (by decide), List.count_append]
      simp
    rw [e, List.count_eq_zero.2 hstar]
  · have e : (frame p h l).count (ofChar '$') = p.count (ofChar '$') + 1 := by
      rw [frame_eq_append, count_append_digits _ h l _ nh2 nl2]
      rw [List.cons_append, List.count_cons_self, List.count_append]
      have : List.count (ofChar '$') [ofChar '*'] = 0 := by decide
      omega
    rw [e, List.count_eq_zero.2 hdollar]
  · have e : (frame p h l).take 3 = ofChar '$' :: p.take 2 := by
      unfold frame
      show List.take (2 + 1) (ofChar '$' :: (p ++ [ofChar '*', h, l])) = _
      rw [List.take_succ_cons, List.take_append_of_le_length (by omega)]
    rw [e, hGP]
    decide
  · intro i hi1 hi2
    obtain ⟨b, hb, hbl⟩ := hletters (i - 1) (by omega) (by omega)
    refine ⟨b, ?_, hbl⟩
    have e : i = (i - 1) + 1 := by omega
    rw [e, hidx, List.getElem?_append_left (by omega)]
    exact hb
  · have e : (frame p h l).length - 3 = p.length + 1 := by omega
    rw [e, hidx, List.getElem?_append_right (Nat.le_refl _), Nat.sub_self]
    rfl
  · intro i hi1 hi2
    rw [hfl] at hi1 hi2
    by_cases hi : i = p.length + 2
    · subst hi
      refine ⟨h, ?_, (isxdigit_iff h).1 hh⟩
      have e : p.length + 1 - p.length = 1 := by omega
      rw [hidx, List.getElem?_append_right (Nat.le_succ _), e]
      rfl
    · have hi' : i = p.length + 3 := by omega
      subst hi'
      refine ⟨l, ?_, (isxdigit_iff l).1 hl⟩
      have e : p.length + 2 - p.length = 2 := by omega
      rw [hidx, List.getElem?_append_right (by omega), e]
      rfl

/-- C22: for a payload of 7-bit bytes that starts with `GP` and three ASCII
letters, has at least six bytes and holds no `$` and no `*`, the line made of
`$`, the payload, `*` and the two hexadecimal digits, each in upper or in lower
case, of the xor of the payload bytes is accepted by `isWellFormedSentence` and
by `hasCorrectChecksum`; and two hexadecimal digits in place of these are
accepted by `hasCorrectChecksum` only when their base 16 value is that xor. -/
theorem checksum_round_trip (p : Str) (upperHigh upperLow : Bool)
    (h7 : ∀ b, b ∈ p → b.val < 128)
    (hGP : p.take 2 = lit "GP")
    (hletters : ∀ i, 2 ≤ i → i ≤ 4 → ∃ b, p[i]? = some b ∧ IsAsciiLetter b)
    (hlen : 6 ≤ p.length)
    (hdollar : ofChar '$' ∉ p) (hstar : ofChar '*' ∉ p) :
    isWellFormedSentence (encode upperHigh upperLow p) = .ok true ∧
    hasCorrectChecksum (encode upperHigh upperLow p) = .ok true ∧
    ∀ h l, IsHexDigit h → IsHexDigit l →
      hasCorrectChecksum (frame p h l) = .ok true →
      16 * hexDigitValue h + hexDigitValue l = xorBytes p := by
  have hx := xorBytes_lt_128 p h7
  obtain ⟨d1, v1⟩ := hexDigit_spec upperHigh (xorBytes p / 16) (by omega)
  obtain ⟨d2, v2⟩ := hexDigit_spec upperLow (xorBytes p % 16) (by omega)
  have hwf : isWellFormedSentence (encode upperHigh upperLow p) = .ok true :=
    isWellFormedSentence_frame p _ _ hGP hletters hlen hdollar hstar d1 d2
  refine ⟨hwf, ?_, ?_⟩
  · rw [hasCorrectChecksum_true_iff _ hwf]
    unfold encode
    rw [payload_frame, checksumValue_frame, v1, v2]
    exact ⟨by omega, hx⟩
  · intro h l hh hl hck
    have hwf' := isWellFormedSentence_frame p h l hGP hletters hlen hdollar hstar
      ((isxdigit_iff h).2 hh) ((isxdigit_iff l).2 hl)
    rw [hasCorrectChecksum_true_iff _ hwf', payload_frame, checksumValue_frame] at hck
    exact hck.1.symm

set_option maxRecDepth 8192 in
/-- C22 on the payload of the sample line, with upper-case digits. -/
theorem checksum_round_trip_witness :
    isWellFormedSentence (encode true true (lit "GPGLL,4916.45,N,12311.12,W,225444,A"))
      = .ok true ∧
    hasCorrectChecksum (encode true true (lit "GPGLL,4916.45,N,12311.12,W,225444,A"))
      = .ok true ∧
    ∀ h l, IsHexDigit h → IsHexDigit l →
      hasCorrectChecksum (frame (lit "GPGLL,4916.45,N,12311.12,W,225444,A") h l) = .ok true →
      16 * hexDigitValue h + hexDigitValue l
        = xorBytes (lit "GPGLL,4916.45,N,12311.12,W,225444,A") :=
  checksum_round_trip (lit "GPGLL,4916.45,N,12311.12,W,225444,A") true true
    (by decide) (by decide) (by unfold IsAsciiLetter; decide) (by decide) (by decide) (by decide)

/-! ## Detection of a changed payload byte -/

theorem foldl_xor_init (l : Str) (a : Nat) :
    l.foldl (fun acc b => acc ^^^ b.val) a = a ^^^ l.foldl (fun acc b => acc ^^^ b.val) 0 := by
  induction l generalizing a with
  | nil => simp
  | cons x xs ih =>
    simp only [List.foldl_cons]
    rw [ih (a ^^^ x.val), ih (0 ^^^ x.val), Nat.zero_xor, Nat.xor_assoc]

/-- Two byte strings of one length that differ at one index only have
different xors, whatever the accumulator starts from. -/
theorem foldl_xor_ne_of_one_diff (l l' : Str) (j a : Nat) (hlen : l'.length = l.length)
    (hj : j < l.length) (hdiff : l'[j]? ≠ l[j]?)
    (hsame : ∀ k, k < l.length → k ≠ j → l'[k]? = l[k]?) :
    l'.foldl (fun acc b => acc ^^^ b.val) a ≠ l.foldl (fun acc b => acc ^^^ b.val) a := by
  induction l generalizing l' j a with
  | nil => simp at hj
  | cons x xs ih =>
    cases l' with
    | nil => simp at hlen
    | cons x' xs' =>
      simp only [List.length_cons, Nat.add_right_cancel_iff] at hlen
      cases j with
      | zero =>
        have hxs : xs' = xs := by
          apply List.ext_getElem?
          intro k
          by_cases hk : k < xs.length
          · have := hsame (k + 1) (by simp; omega) (by omega)
            simpa using this
          · rw [List.getElem?_eq_none (by omega), List.getElem?_eq_none (by omega)]
        subst hxs
        have hne : x' ≠ x := by
          intro e; apply hdiff; simp [e]
        simp only [List.foldl_cons]
        rw [foldl_xor_init xs' (a ^^^ x'.val), foldl_xor_init xs' (a ^^^ x.val)]
        intro e
        rw [Nat.xor_left_inj, Nat.xor_right_inj] at e
        exact hne (Fin.ext e)
      | succ j' =>
        have hx : x' = x := by
          have := hsame 0 (by simp) (by omega)
          simpa using this
        subst hx
        simp only [List.foldl_cons]
        apply ih xs' j' _ hlen (by simpa using hj)
        · simpa using hdiff
        · intro k hk hkj
          have := hsame (k + 1) (by simp; omega) (by omega)
          simpa using this

theorem getElem?_payload (s : Str) (k : Nat) :
    (payload s)[k]? = if k < s.length - 4 then s[1 + k]? else none := by
  unfold payload
  by_cases hk : k < s.length - 4
  · rw [if_pos hk, List.getElem?_take_of_lt hk, List.getElem?_drop]
  · rw [if_neg hk, List.getElem?_take_eq_none (by omega)]

/-- C23: when a well-formed line with a correct checksum and a well-formed line
of the same length differ in exactly one byte, at an index from 1 to
`length - 4`, `hasCorrectChecksum` answers `false` on the second. -/
theorem single_byte_error_detected (s s' : Str) (i : Nat)
    (hwf : isWellFormedSentence s = .ok true) (hck : hasCorrectChecksum s = .ok true)
    (hwf' : isWellFormedSentence s' = .ok true) (hlen : s'.length = s.length)
    (hi1 : 1 ≤ i) (hi2 : i ≤ s.length - 4)
    (hdiff : s'[i]? ≠ s[i]?)
    (hsame : ∀ j, j < s.length → j ≠ i → s'[j]? = s[j]?) :
    hasCorrectChecksum s' = .ok false := by
  have hl10 : 10 ≤ s.length := ((isWellFormedSentence_true_iff s).1 hwf).1
  have hpl : (payload s').length = (payload s).length := by
    unfold payload; simp [hlen]
  have hpl2 : (payload s).length = s.length - 4 := by
    unfold payload; simp; omega
  have hxor : xorBytes (payload s') ≠ xorBytes (payload s) := by
    unfold xorBytes
    apply foldl_xor_ne_of_one_diff (payload s) (payload s') (i - 1) 0 hpl (by omega)
    · have hk : i - 1 < s.length - 4 := by omega
      have e : 1 + (i - 1) = i := by omega
      rw [getElem?_payload, getElem?_payload, hlen, if_pos hk, if_pos hk, e]
      exact hdiff
    · intro k hk hki
      rw [hpl2] at hk
      rw [getElem?_payload, getElem?_payload, hlen, if_pos hk, if_pos hk]
      exact hsame (1 + k) (by omega) (by omega)
  have hcv : checksumValue s' = checksumValue s := by
    unfold checksumValue
    rw [List.getD_eq_getElem?_getD, List.getD_eq_getElem?_getD, List.getD_eq_getElem?_getD,
      List.getD_eq_getElem?_getD, hlen, hsame (s.length - 2) (by omega) (by omega),
      hsame (s.length - 1) (by omega) (by omega)]
  rw [hasCorrectChecksum_true_iff s hwf] at hck
  rcases hb : hasCorrectChecksum s' with e | b
  · rw [hasCorrectChecksum_eq s' hwf'] at hb; cases hb
  · cases b with
    | false => rfl
    | true =>
      exfalso
      rw [hasCorrectChecksum_true_iff s' hwf', hcv] at hb
      exact hxor (hb.1.trans hck.1.symm)

set_option maxRecDepth 8192 in
/-- C23 on the sample line and the line that has `5` for `4` at index 7. -/
theorem single_byte_error_detected_witness :
    hasCorrectChecksum (lit "$GPGLL,5916.45,N,12311.12,W,225444,A*31") = .ok false :=
  single_byte_error_detected sampleLine (lit "$GPGLL,5916.45,N,12311.12,W,225444,A*31") 7
    (by decide) (by decide) (by decide) (by decide) (by decide) (by decide) (by decide)
    (by decide)
end NMEA

namespace GPX

open NMEA

/-! ## GPX name formatting -/

/-- C19, at the failing input: for the name of two spaces, `ab`, two spaces,
`format_name` returns `ab` followed by the two spaces, where the name without
its leading and trailing spaces is `ab`; a name without leading spaces loses
its trailing spaces, and a name of spaces only gives the empty string. -/
theorem format_name_keeps_trailing_spaces :
    format_name (lit "  ab  ") = .ok (lit "ab  ") ∧
    trimSpaces (lit "  ab  ") = lit "ab" ∧
    format_name (lit " a b   ") = .ok (lit "a b ") ∧
    format_name (lit "ab  ") = .ok (lit "ab") ∧
    format_name (lit "  ab") = .ok (lit "ab") ∧
    format_name (lit "   ") = .ok (lit "") ∧
    format_name (lit "") = .ok (lit "") := by
  decide

end GPX
